import Mathlib

/-!
Verification of the job-scraper core (`src/config.py`, `src/gemini_ai.py`,
`src/web_scraper.py`) against its natural-language specification.

The Python source is shallowly embedded: pure helpers become Lean functions;
the stateful pieces (the rate limiter, the model-cooldown tracker, the
model-fallback retry loop, and the list/detail extraction loop of
`scrape_mode`) become explicit state-passing functions driven by an
environment oracle that supplies, for each step, what the outside world
(the Gemini API, the browser DOM) produced there.  Timestamps are modelled
as rationals; sleeps return the slept duration instead of blocking, and a
sleep of `d` advances the model clock by `d`.
-/

namespace Scrapper

/-! ### Generic string helpers

Python tests substring containment (`keyword in error_msg`) and lowercases
with `str.lower`.  We implement containment over character lists. -/

/-- Does the first list start with the second one? -/
def startsWithChars : List Char → List Char → Bool
  | _, [] => true
  | [], _ :: _ => false
  | c :: cs, p :: ps => c = p && startsWithChars cs ps

/-- Does `hay` contain `pat` as a contiguous run? -/
def hasSubstrChars (pat : List Char) : List Char → Bool
  | [] => startsWithChars [] pat
  | c :: t => startsWithChars (c :: t) pat || hasSubstrChars pat t

/-- ASCII lowercasing of one character (the effect of `str.lower` on the
error texts involved here, which are ASCII). -/
def lowerChar (c : Char) : Char :=
  if 65 ≤ c.toNat ∧ c.toNat ≤ 90 then Char.ofNat (c.toNat + 32) else c

/-- ASCII lowercasing of a character list. -/
def lowerChars (cs : List Char) : List Char := cs.map lowerChar

/-- Embedding of the Python `pat in s` substring test. -/
def strContains (s pat : String) : Bool :=
  hasSubstrChars pat.toList s.toList

/-- Embedding of `pat in s.lower()` for a lowercase pattern `pat`. -/
def strContainsLower (s pat : String) : Bool :=
  hasSubstrChars pat.toList (lowerChars s.toList)

/-- Splits a character list at every position where `p` holds (the
separators are dropped; empty pieces are kept, as in Python `str.split(sep)`). -/
def splitOnPred (p : Char → Bool) : List Char → List (List Char)
  | [] => [[]]
  | c :: t =>
      match splitOnPred p t with
      | [] => if p c then [[], []] else [[c]]
      | h :: rest => if p c then [] :: h :: rest else (c :: h) :: rest

/-- Drops leading and trailing whitespace (Python `str.strip()`). -/
def stripChars (cs : List Char) : List Char :=
  ((cs.dropWhile Char.isWhitespace).reverse.dropWhile Char.isWhitespace).reverse

/-- Joins word groups with single spaces (`" ".join(...)`). -/
def joinSpace : List (List Char) → List Char
  | [] => []
  | [w] => w
  | w :: ws => w ++ ' ' :: joinSpace ws

/-! ### Configuration constants (`src/config.py`) -/

def GEMINI_MODEL_PRIMARY : String := "gemini-1.5-flash"

def GEMINI_MODEL_FALLBACK : String := "gemini-1.5-pro"

def GEMINI_MODEL_EMERGENCY : String := "gemini-1.0-pro"

def MAX_RETRY_ATTEMPTS : ℕ := 3

def RETRY_DELAY_SECONDS : ℕ := 2

def GEMINI_REQUESTS_PER_MINUTE : ℕ := 15

def GEMINI_RATE_LIMIT_BUFFER : ℚ := 5

/-- Embedding of `GEMINI_MIN_REQUEST_INTERVAL = 60 / GEMINI_REQUESTS_PER_MINUTE
+ GEMINI_RATE_LIMIT_BUFFER` (free tier: `60/15 + 5 = 9`). -/
def GEMINI_MIN_REQUEST_INTERVAL : ℚ :=
  60 / (GEMINI_REQUESTS_PER_MINUTE : ℚ) + GEMINI_RATE_LIMIT_BUFFER

/-! ### Rate limiter (`wait_for_rate_limit`, `src/gemini_ai.py` lines 62-97)

The three module-level globals `_last_request_time`, `_request_count` and
`_minute_start_time` form the state.  `waitForRateLimit cap minI st now`
returns the total slept duration together with the updated state.  The model
clock: `time.time()` re-read after sleeping `d` seconds yields `now + d`;
the Python code computes the inter-request gap from the `current_time`
variable captured on entry, which we reproduce exactly. -/

structure RateState where
  lastRequestTime : ℚ
  requestCount : ℕ
  minuteStartTime : ℚ
deriving Repr, DecidableEq

/-- Embedding of `wait_for_rate_limit` with the requests-per-minute cap and
minimum interval as parameters.  Returns `(total sleep, new state)`. -/
def waitForRateLimit (cap : ℕ) (minI : ℚ) (st : RateState) (now : ℚ) :
    ℚ × RateState :=
  -- reset counter if a new minute has started
  let count1 : ℕ := if 60 ≤ now - st.minuteStartTime then 0 else st.requestCount
  let mStart1 : ℚ := if 60 ≤ now - st.minuteStartTime then now else st.minuteStartTime
  -- per-minute cap: sleep for the remainder of the window, then reset
  let capHit : Bool := cap ≤ count1
  let capWait : ℚ := 60 - (now - mStart1)
  let windowSleep : ℚ := if capHit ∧ 0 < capWait then capWait else 0
  let count2 : ℕ := if capHit ∧ 0 < capWait then 0 else count1
  let mStart2 : ℚ := if capHit ∧ 0 < capWait then now + capWait else mStart1
  -- minimum interval since the previous granted request, measured from the
  -- stale `current_time` captured on entry (as in the source)
  let gap : ℚ := now - st.lastRequestTime
  let intervalSleep : ℚ := if gap < minI then minI - gap else 0
  let total : ℚ := windowSleep + intervalSleep
  (total,
   { lastRequestTime := now + total
     requestCount := count2 + 1
     minuteStartTime := mStart2 })

/-- Runs a sequence of `wait_for_rate_limit` calls made at the given
timestamps, returning the list of slept durations. -/
def runRateCalls (cap : ℕ) (minI : ℚ) : RateState → List ℚ → List ℚ
  | _, [] => []
  | st, t :: ts =>
      let r := waitForRateLimit cap minI st t
      r.1 :: runRateCalls cap minI r.2 ts

/-- Timestamps are spaced at least `minI` apart, starting from `prev`. -/
def spacedB (minI : ℚ) : ℚ → List ℚ → Bool
  | _, [] => true
  | prev, t :: ts => decide (prev + minI ≤ t) && spacedB minI t ts

/-- All timestamps fall inside the 60-second window that started at `ws`. -/
def inWindowB (ws : ℚ) (ts : List ℚ) : Bool :=
  ts.all fun t => decide (ws ≤ t) && decide (t - ws < 60)

/-! ### Python dictionaries

Python dicts preserve insertion order and have unique keys, so a dict is an
association list: lookup finds the (unique) entry, assignment replaces it
in place or appends a new entry at the end. -/

/-- Python dict lookup: `some v` when the key is present with value `v`,
`none` when absent (`d.get(k)`, and `k in d` is `isSome`). -/
def dictGet {α : Type} (d : List (String × α)) (k : String) : Option α :=
  (d.find? fun p => p.1 = k).map Prod.snd

/-- Python dict assignment `d[k] = v`. -/
def dictSet {α : Type} : List (String × α) → String → α → List (String × α)
  | [], k, v => [(k, v)]
  | p :: t, k, v => if p.1 = k then (k, v) :: t else p :: dictSet t k v

/-! ### Model cooldown tracker (`mark_model_rate_limited`,
`is_model_rate_limited`, `src/gemini_ai.py` lines 36-59)

`_model_rate_limit_flags` is a dict from model name to mark timestamp;
deleting a key is modelled by filtering it out. -/

/-- Looks a model up in the flags dict (`model_name in _model_rate_limit_flags`). -/
def lookupFlag (flags : List (String × ℚ)) (model : String) : Option ℚ :=
  dictGet flags model

/-- Embedding of `mark_model_rate_limited`: `_model_rate_limit_flags[model] = now`. -/
def markModelRateLimited (flags : List (String × ℚ)) (model : String) (now : ℚ) :
    List (String × ℚ) :=
  dictSet flags model now

/-- Embedding of `is_model_rate_limited`: returns the boolean answer and the
updated flags dict (an expired mark is deleted by the check itself). -/
def isModelRateLimited (flags : List (String × ℚ)) (model : String)
    (cooldownMinutes : ℕ) (now : ℚ) : Bool × List (String × ℚ) :=
  match lookupFlag flags model with
  | none => (false, flags)
  | some mark =>
      if (cooldownMinutes : ℚ) * 60 < now - mark then
        (false, flags.filter fun p => p.1 ≠ model)
      else
        (true, flags)

/-- Default value of the `cooldown_minutes` parameter. -/
def DEFAULT_COOLDOWN_MINUTES : ℕ := 5

/-! ### JSON values

`json.loads` produces a Python value: `None`, a bool, a number (`int` or
`float`), a string, a list, or a dict.  Dicts preserve insertion order, so a
parsed object is an association list. -/

inductive JValue where
  | jnull : JValue
  | jbool (b : Bool) : JValue
  | jnum (isFloat : Bool) (q : ℚ) : JValue
  | jstr (s : String) : JValue
  | jarr (xs : List JValue) : JValue
  | jobj (fields : List (String × JValue)) : JValue

/-- The Python runtime type name of a parsed JSON value, as it appears in an
`AttributeError` raised by calling `.items()` on it. -/
def pythonTypeName : JValue → String
  | .jnull => "NoneType"
  | .jbool _ => "bool"
  | .jnum isFloat _ => if isFloat then "float" else "int"
  | .jstr _ => "str"
  | .jarr _ => "list"
  | .jobj _ => "dict"

/-- The `AttributeError` message produced by `parsed_response.items()` when
`parsed_response` is not a dict. -/
def itemsErrorMsg (v : JValue) : String :=
  "\x27" ++ pythonTypeName v ++ "\x27 object has no attribute \x27items\x27"

/-- Is the value a JSON object (a Python dict)? -/
def JValue.isObj : JValue → Bool
  | .jobj _ => true
  | _ => false

/-! ### Model fallback client (`call_gemini_with_fallback`,
`src/gemini_ai.py` lines 111-195)

The environment oracle supplies, per attempt, what happened at the API call
and parse site:

* `apiErr msg`   — `model.generate_content` (or anything before the JSON
  parse that is not the parse itself) raised a non-`JSONDecodeError`
  exception whose `str` is `msg`;
* `emptyResp`    — the response was empty, so the code itself raises
  `ValueError("Empty response from Gemini API")`, caught by the generic
  handler;
* `jsonErr msg`  — `json.loads` raised a `JSONDecodeError` whose message is
  `msg` (this lands in the dedicated `except json.JSONDecodeError` clause);
* `parsed v`     — `json.loads` succeeded with value `v`.

Fence-stripping of the raw text (`.replace` of code-fence markers) happens
before the parse and is absorbed into the oracle. -/

inductive GStim where
  | emptyResp : GStim
  | jsonErr (msg : String) : GStim
  | apiErr (msg : String) : GStim
  | parsed (v : JValue) : GStim

/-- What one attempt decides: return the parsed dict, retry the same model
after an optional fixed delay, or mark the model rate-limited and break to
the next model. -/
inductive GStep where
  | success (fields : List (String × JValue)) : GStep
  | retryStep (delaySecs : ℕ) : GStep
  | quotaBreak : GStep

/-- The keyword list of the quota/rate-limit classifier (line 180). -/
def QUOTA_KEYWORDS : List String :=
  ["quota", "rate", "limit", "resource_exhausted", "429", "exceeded"]

/-- Embedding of `any(keyword in error_msg for keyword in [...])` applied to
`error_msg = str(e).lower()`. -/
def isQuotaError (msg : String) : Bool :=
  QUOTA_KEYWORDS.any fun k => strContainsLower msg k

/-- Message of the `ValueError` raised on an empty response. -/
def emptyRespMsg : String := "Empty response from Gemini API"

/-- Classification of a generic (non-`JSONDecodeError`) exception, per the
`except Exception` handler (lines 177-190). -/
def classifyGenericError (msg : String) : GStep :=
  if isQuotaError msg then .quotaBreak else .retryStep RETRY_DELAY_SECONDS

/-- What a single attempt of the retry loop body (lines 138-190) does with
the oracle outcome.  A `JSONDecodeError` is caught by its dedicated handler
and always retries; every other exception goes through the quota
classifier; a parsed non-dict raises `AttributeError` at the
`parsed_response.items()` validation and is classified like any generic
exception. -/
def processOutcome : GStim → GStep
  | .emptyResp => classifyGenericError emptyRespMsg
  | .jsonErr _ => .retryStep RETRY_DELAY_SECONDS
  | .apiErr msg => classifyGenericError msg
  | .parsed v =>
      match v with
      | .jobj fields => .success fields
      | _ => classifyGenericError (itemsErrorMsg v)

/-- Observable events of a `call_gemini_with_fallback` run. -/
inductive GEvent where
  | attemptEv (model : String) (idx : ℕ) : GEvent
  | retrySleepEv (secs : ℕ) : GEvent
  | markCooledEv (model : String) : GEvent
  | skipCooledEv (model : String) : GEvent
  | initFailEv (model : String) : GEvent
deriving DecidableEq, Repr

/-- Embedding of the inner retry loop (`for attempt in range(MAX_RETRY_ATTEMPTS)`)
for one model.  `idx` is the current attempt index; the `i`-th entry of the
stimulus list is what attempt `idx + i` encounters.  The fixed retry delay
is slept only when another attempt remains (`attempt < MAX_RETRY_ATTEMPTS - 1`). -/
def runAttempts (model : String) (maxA : ℕ) :
    List GStim → ℕ → List GEvent × Option (List (String × JValue))
  | [], _ => ([], none)
  | s :: rest, idx =>
      if maxA ≤ idx then ([], none)
      else
        match processOutcome s with
        | .success fields => ([.attemptEv model idx], some fields)
        | .quotaBreak => ([.attemptEv model idx, .markCooledEv model], none)
        | .retryStep d =>
            if idx + 1 < maxA then
              let r := runAttempts model maxA rest (idx + 1)
              (.attemptEv model idx :: .retrySleepEv d :: r.1, r.2)
            else ([.attemptEv model idx], none)

/-- Embedding of the outer model-hierarchy loop: skip cooled-down models,
skip models that fail to initialize, otherwise run the retry loop and return
its parsed dict if any, else advance to the next model. -/
def runFallback (cooled initOk : String → Bool) (stimuli : String → List GStim) :
    List String → List GEvent × Option (List (String × JValue))
  | [] => ([], none)
  | m :: ms =>
      if cooled m then
        let r := runFallback cooled initOk stimuli ms
        (.skipCooledEv m :: r.1, r.2)
      else if initOk m then
        let ra := runAttempts m MAX_RETRY_ATTEMPTS (stimuli m) 0
        match ra.2 with
        | some fields => (ra.1, some fields)
        | none =>
            let r := runFallback cooled initOk stimuli ms
            (ra.1 ++ r.1, r.2)
      else
        let r := runFallback cooled initOk stimuli ms
        (.initFailEv m :: r.1, r.2)

/-- The trace of a run of `k` consecutive failed-and-retried attempts
starting at index `idx`: each attempt event is followed by the fixed-delay
sleep. -/
def retryEvents (model : String) : ℕ → List GStim → List GEvent
  | _, [] => []
  | idx, _ :: rest =>
      .attemptEv model idx :: .retrySleepEv RETRY_DELAY_SECONDS ::
        retryEvents model (idx + 1) rest

/-- A model contributes nothing to the result: it is cooled down, fails to
initialize, or exhausts its attempts without a successful parse. -/
def modelFails (cooled initOk : String → Bool) (stimuli : String → List GStim)
    (m : String) : Prop :=
  cooled m = true ∨ initOk m = false ∨
    (runAttempts m MAX_RETRY_ATTEMPTS (stimuli m) 0).2 = none

/-! ### Selector schema and its consumption (`src/web_scraper.py`)

`scrape_mode` never normalizes the dict returned by the client; it reads the
schema keys with `selectors.get(key)` (missing key → `None`) and gates each
use on Python truthiness. -/

/-- The list-level schema keys fixed by the prompt of `get_selectors_from_gemini`. -/
def LIST_SCHEMA_KEYS : List String :=
  ["job_item", "title", "location", "job_link", "job_id", "description",
   "pagination_next"]

/-- The detail-level schema keys fixed by the prompt of
`get_job_detail_selectors_from_gemini`. -/
def DETAIL_SCHEMA_KEYS : List String :=
  ["full_description", "requirements", "company_info", "job_type",
   "experience_level", "salary", "deadline", "skills"]

/-- Embedding of `selectors.get(key)` on a parsed JSON object. -/
def selectorsGet (m : List (String × JValue)) (k : String) : Option JValue :=
  dictGet m k

/-- The selector string the scraper uses for the gated schema keys — the
keys it reads through `selectors.get(key)` before subscripting (`title`,
`location`, `job_link`, `job_id`, `description` at lines 402-428, and
`pagination_next` through the membership-plus-truthiness test at line 516):
a missing key, a JSON `null`, or an empty string all yield no usable
selector.  The `job_item` key is NOT read this way — lines 392-393
subscript it ungated, which raises `KeyError` when it is missing; that read
is modelled by `runScrapeWithSelectors` below. -/
def effectiveSelector (m : List (String × JValue)) (k : String) : Option String :=
  match selectorsGet m k with
  | some (.jstr s) => if s = "" then none else some s
  | _ => none

/-! ### Detail-field dictionaries and the merge of `extract_job_details`
(`src/web_scraper.py` lines 54-112)

Detail dictionaries map field names to an optional string (`None` models
the Python `None` value); insertion order is preserved, as in Python dicts. -/

/-- Embedding of the merge loop of `extract_job_details` (lines 98-100):

    for key, value in fallback_extracted.items():
        if key not in details or details[key] is None:
            details[key] = value -/
def mergeDetails (details fallback : List (String × Option String)) :
    List (String × Option String) :=
  fallback.foldl
    (fun acc kv =>
      match dictGet acc kv.1 with
      | none => dictSet acc kv.1 kv.2
      | some none => dictSet acc kv.1 kv.2
      | some (some _) => acc)
    details

/-- Python `dict.update`: every key of `upd` is written into `d`. -/
def dictUpdate (d upd : List (String × Option String)) :
    List (String × Option String) :=
  upd.foldl (fun acc kv => dictSet acc kv.1 kv.2) d

/-- Whitespace normalization `" ".join(value.split())` of `clean_job_details`
(Python `str.split()` drops empty pieces). -/
def normSpace (s : String) : String :=
  String.mk (joinSpace ((splitOnPred Char.isWhitespace s.toList).filter
    fun w => w ≠ []))

/-- Embedding of `clean_job_details` (lines 260-279): drop `None` values,
normalize whitespace, drop empty strings and placeholder markers. -/
def cleanJobDetails (details : List (String × Option String)) :
    List (String × Option String) :=
  details.filterMap fun kv =>
    match kv.2 with
    | none => none
    | some s =>
        let w := normSpace s
        if w ≠ "" ∧ w ∉ ["N/A", "n/a", "None", "null", "-"] then
          some (kv.1, some w)
        else none

/-! ### Job ID resolver (`extract_job_id`, `src/web_scraper.py` lines 15-51)

A clickable element is its attribute dictionary plus its text content.
The regular expressions of `id_patterns` are implemented directly:
`re.search` scans start positions left to right; at a given start,
`/job[s]?/(\w+)` first tries to consume the optional `s` (backtracking to
the empty alternative), then requires `/` and captures a maximal nonempty
run of word characters; `id=(\w+)` requires the literal key then captures
word characters; `/(\d+)/?$` requires `/`, a digit run, an optional final
`/`, and then the end of the string. -/

structure Element where
  attrs : List (String × String)
  innerText : String

/-- Embedding of `element.get_attribute(name)`. -/
def getAttribute (el : Element) (name : String) : Option String :=
  (el.attrs.find? fun p => p.1 = name).map Prod.snd

/-- Python `\w` on the ASCII range: letters, digits, underscore. -/
def isWordChar (c : Char) : Bool :=
  c.isAlpha || c.isDigit || c = '_'

/-- Captures a maximal nonempty run of word characters (`(\w+)` greedy). -/
def takeWord1 (cs : List Char) : Option String :=
  let w := cs.takeWhile isWordChar
  if w.isEmpty then none else some (String.mk w)

/-- Matches `stem[s]?/(\w+)` anchored at the start of `cs` (with `stem` one
of `/job`, `/position`, `/career`). -/
def matchSegAt (stem : List Char) (cs : List Char) : Option String :=
  if cs.take stem.length = stem then
    match cs.drop stem.length with
    | 's' :: '/' :: tail => takeWord1 tail
    | '/' :: tail => takeWord1 tail
    | _ => none
  else none

/-- Matches `key(\w+)` anchored at the start of `cs` (with `key` one of
`id=`, `jobId=`, `positionId=`). -/
def matchKeyAt (key : List Char) (cs : List Char) : Option String :=
  if cs.take key.length = key then takeWord1 (cs.drop key.length)
  else none

/-- Matches `/(\d+)/?$` anchored at the start of `cs`: a slash, a digit run
reaching the end of the string or a single final slash. -/
def matchTrailingDigitsAt : List Char → Option String
  | '/' :: rest =>
      let ds := rest.takeWhile Char.isDigit
      let tail := rest.drop ds.length
      if ds ≠ [] ∧ (tail = [] ∨ tail = ['/']) then some (String.mk ds)
      else none
  | _ => none

/-- Embedding of `re.search` for the patterns above: try every start
position from the left; the leftmost match wins. -/
def searchHref (f : List Char → Option String) : List Char → Option String
  | [] => none
  | c :: cs =>
      match f (c :: cs) with
      | some r => some r
      | none => searchHref f cs

/-- The ordered `id_patterns` list applied to an href; the first pattern
that matches anywhere wins. -/
def extractFromHref (href : String) : Option String :=
  let cs := href.toList
  let tries : List (Option String) :=
    [searchHref (matchSegAt "/job".toList) cs,
     searchHref (matchSegAt "/position".toList) cs,
     searchHref (matchSegAt "/career".toList) cs,
     searchHref (matchKeyAt "id=".toList) cs,
     searchHref (matchKeyAt "jobId=".toList) cs,
     searchHref (matchKeyAt "positionId=".toList) cs,
     searchHref matchTrailingDigitsAt cs]
  tries.foldl (fun acc r => match acc with | some v => some v | none => r) none

/-- The data-attribute fallback chain (lines 39-42): the first of
`data-id`, `data-job-id`, `data-position-id`, `id` with a truthy value. -/
def dataAttrChain (el : Element) : Option String :=
  let tryAttr : String → Option String := fun name =>
    match getAttribute el name with
    | some v => if v = "" then none else some v
    | none => none
  match tryAttr "data-id" with
  | some v => some v
  | none =>
      match tryAttr "data-job-id" with
      | some v => some v
      | none =>
          match tryAttr "data-position-id" with
          | some v => some v
          | none => tryAttr "id"

/-- The text-content fallback (lines 45-47): the stripped text, accepted
only when nonempty and purely numeric. -/
def textDigitsFallback (el : Element) : Option String :=
  let t := stripChars el.innerText.toList
  if t ≠ [] ∧ t.all Char.isDigit then some (String.mk t) else none

/-- Embedding of `extract_job_id`: href patterns first (when the href is
truthy), then data attributes, then purely-numeric text, else `None`. -/
def extract_job_id (el : Element) : Option String :=
  let hrefStage : Option String :=
    match getAttribute el "href" with
    | some h => if h = "" then none else extractFromHref h
    | none => none
  match hrefStage with
  | some v => some v
  | none =>
      match dataAttrChain el with
      | some v => some v
      | none => textDigitsFallback el

/-! ### Extraction state machine (`scrape_mode`, `src/web_scraper.py`
lines 350-533)

One shared browser page object drives the whole walk; its current URL is
the only browser state the claims need.  The environment oracle supplies,
per item of per page, what the DOM produced: the base field texts, whether
base extraction raised, the href found by the `job_link` selector, what the
one-time detail-schema discovery would encounter, whether `page.goto` in
`extract_job_details` raises, and the texts the detail-page extraction and
the heuristic fallback would produce.  Detail-selector values are modelled
as nullable strings.  `extract_job_id` is modelled separately above; here
the resolved id is an oracle field. -/

structure Browser where
  url : String
deriving Repr, DecidableEq

/-- What the one-time detail-schema discovery block (lines 445-480)
encounters: either something before/around the Gemini call raises (the
`except` branch: `detail_selectors = {}` and the analyzed flag is NOT set),
or the Gemini call itself runs and returns a parsed dict or `None`. -/
inductive DiscoveryOutcome where
  | navRaises : DiscoveryOutcome
  | geminiReturns (r : Option (List (String × Option String))) : DiscoveryOutcome

structure ItemSpec where
  title : Option String
  location : Option String
  jobIdVal : Option String
  previewDescription : Option String
  baseRaises : Bool
  link : Option String
  discovery : DiscoveryOutcome
  detailNavRaises : Bool
  aiFields : String → Option String
  fbFields : List (String × Option String)
  metaFields : List (String × Option String)

/-- A job record is the flat Python dict built at lines 433-440 and then
possibly extended in place by `job_data.update(job_details)`: one ordered
dictionary, so a detail key that collides with a base key (say a detail
selector literally named `title`) overwrites the base field. -/
abbrev JobData := List (String × Option String)

/-- The keys of the base record dict literal (lines 433-440), in insertion
order. -/
def BASE_RECORD_KEYS : List String :=
  ["title", "location", "job_id", "job_url", "preview_description", "company"]

/-- Session-scoped mutable state of `scrape_mode`: the `job_detail_analyzed`
flag and the `detail_selectors` variable (`none` models Python `None`,
`some []` models `{}`). -/
structure SessionSt where
  analyzed : Bool
  detailSelectors : Option (List (String × Option String))

/-- Embedding of `detail_selectors or {}` (line 484): Python `None` and the
empty dict are both falsy, so this is just the default-empty read. -/
def usedSchema (st : SessionSt) : List (String × Option String) :=
  st.detailSelectors.getD []

/-- Embedding of the origin computation (line 416):
`page.url.split('/')[0] + "//" + page.url.split('/')[2]`. -/
def urlOrigin (u : String) : String :=
  let parts := (splitOnPred (fun c => c = '/') u.toList).map String.mk
  parts.getD 0 "" ++ "//" ++ parts.getD 2 ""

/-- Embedding of the relative-URL handling (lines 414-417): a truthy href
not starting with `http` is prefixed with the current page's origin. -/
def resolveLink (pageUrl : String) : Option String → Option String
  | none => none
  | some h =>
      if h ≠ "" ∧ ¬ startsWithChars h.toList "http".toList then
        some (urlOrigin pageUrl ++ h)
      else some h

/-- Observable events of a `scrape_mode` run. -/
inductive SEvent where
  | itemAt (page i : ℕ) (url : String) : SEvent
  | itemRaised (page i : ℕ) : SEvent
  | discoveryAttempted (page i : ℕ) : SEvent
  | discoveryCalled (page i : ℕ) : SEvent
  | detailFetch (page i : ℕ) (schema : List (String × Option String)) : SEvent
  | paginationCheck (page : ℕ) (url : String) : SEvent
  | noItems (page : ℕ) : SEvent
deriving DecidableEq, Repr

/-- The number of detail-schema Gemini calls recorded in a trace. -/
def countDiscoveryCalls (evs : List SEvent) : ℕ :=
  (evs.filter fun e =>
    match e with
    | .discoveryCalled _ _ => true
    | _ => false).length

/-- Embedding of `extract_job_details` (lines 54-112) for the session model:
navigate the shared page to the job URL (a navigation error is caught and
yields `{}`), extract one value per schema key with a truthy selector, merge
the heuristic fallback underneath, add metadata, clean.  Returns the browser
afterwards — still on the detail page: the source never navigates back. -/
def extractJobDetailsM (jobUrl : String) (schema : List (String × Option String))
    (it : ItemSpec) : Browser × List (String × Option String) :=
  if it.detailNavRaises then (⟨jobUrl⟩, [])
  else
    let aiDetails : List (String × Option String) :=
      schema.map fun kv =>
        (kv.1,
         match kv.2 with
         | some s => if s ≠ "" then it.aiFields kv.1 else none
         | none => none)
    let merged := mergeDetails aiDetails it.fbFields
    let withMeta := dictUpdate merged it.metaFields
    (⟨jobUrl⟩, cleanJobDetails withMeta)

/-- The base record built from the list page (lines 433-440): the dict
literal in its insertion order. -/
def mkBaseJob (company : Option String) (it : ItemSpec)
    (jobLink : Option String) : JobData :=
  [("title", it.title),
   ("location", it.location),
   ("job_id", it.jobIdVal),
   ("job_url", jobLink),
   ("preview_description", it.previewDescription),
   ("company", company)]

/-- Embedding of the one-time detail-schema discovery block (lines 445-480):
runs only when the analyzed flag is unset and the current item is the first
of its page (`i == 0`); on an exception before the Gemini call the variable
`detail_selectors` becomes `{}` and the flag stays unset, otherwise the
Gemini call happens, its result (possibly `None`) is stored, and the flag is
set. -/
def discoveryStep (pageIdx i : ℕ) (it : ItemSpec) (st : SessionSt) :
    SessionSt × List SEvent :=
  if ¬ st.analyzed ∧ i = 0 then
    match it.discovery with
    | .navRaises =>
        ({ analyzed := st.analyzed, detailSelectors := some [] },
         [.discoveryAttempted pageIdx i])
    | .geminiReturns r =>
        ({ analyzed := true, detailSelectors := r },
         [.discoveryAttempted pageIdx i, .discoveryCalled pageIdx i])
  else (st, [])

/-- Embedding of lines 486-487: `if job_details: job_data.update(job_details)`.
An empty details dict is falsy and leaves the base record untouched;
otherwise every detail key is written into the one flat record dict — a
detail key equal to a base key (`title`, `location`, ...) overwrites that
base field in place. -/
def detailJob (base : JobData) (det : List (String × Option String)) : JobData :=
  if det ≠ [] then dictUpdate base det else base

/-- Embedding of one iteration of the per-item loop (lines 399-513).
Returns the browser, the session state, the record appended for this item
(if any), and the events. -/
def processItem (full : Bool) (company : Option String) (pageIdx i : ℕ)
    (it : ItemSpec) (b : Browser) (st : SessionSt) :
    Browser × SessionSt × Option JobData × List SEvent :=
  let evStart := SEvent.itemAt pageIdx i b.url
  if it.baseRaises then (b, st, none, [evStart, .itemRaised pageIdx i])
  else
    let jobLink := resolveLink b.url it.link
    let base := mkBaseJob company it jobLink
    match jobLink with
    | some u =>
        if full ∧ u ≠ "" then
          let disc := discoveryStep pageIdx i it st
          let schema := usedSchema disc.1
          let fetched := extractJobDetailsM u schema it
          (fetched.1, disc.1, some (detailJob base fetched.2),
           evStart :: disc.2 ++ [.detailFetch pageIdx i schema])
        else (b, st, some base, [evStart])
    | none => (b, st, some base, [evStart])

/-- The per-item loop over one page's job cards. -/
def processItems (full : Bool) (company : Option String) (pageIdx : ℕ) :
    List ItemSpec → ℕ → Browser → SessionSt →
    Browser × SessionSt × List JobData × List SEvent
  | [], _, b, st => (b, st, [], [])
  | it :: rest, i, b, st =>
      match processItem full company pageIdx i it b st with
      | (b1, st1, jOpt, evs1) =>
          match processItems full company pageIdx rest (i + 1) b1 st1 with
          | (b2, st2, js, evs2) => (b2, st2, jOpt.toList ++ js, evs1 ++ evs2)

/-- One list page as the oracle presents it: its URL, its job cards, and
whether the pagination control is visible and enabled after its items. -/
structure PageSpec where
  listUrl : String
  items : List ItemSpec
  nextEnabled : Bool

/-- Embedding of the `while True` page loop (lines 390-526): stop on a page
with no job cards; otherwise process the items, then check pagination
against the current browser state and either click through to the next page
or stop. -/
def runPages (full : Bool) (company : Option String) :
    List PageSpec → ℕ → Browser → SessionSt →
    SessionSt × List JobData × List SEvent
  | [], _, _, st => (st, [], [])
  | p :: rest, pageIdx, b, st =>
      if p.items.isEmpty then (st, [], [.noItems pageIdx])
      else
        match processItems full company pageIdx p.items 0 b st with
        | (b1, st1, js, evs) =>
            let evP := SEvent.paginationCheck pageIdx b1.url
            match rest, p.nextEnabled with
            | q :: rest2, true =>
                match runPages full company (q :: rest2) (pageIdx + 1) ⟨q.listUrl⟩ st1 with
                | (st2, js2, evs2) => (st2, js ++ js2, evs ++ [evP] ++ evs2)
            | _, _ => (st1, js, evs ++ [evP])

/-- A whole `scrape_mode` session: `page_count` starts at 1, the analyzed
flag is false and `detail_selectors` is `None`. -/
def runScrape (full : Bool) (company : Option String) (startUrl : String)
    (pages : List PageSpec) : SessionSt × List JobData × List SEvent :=
  runPages full company pages 1 ⟨startUrl⟩ ⟨false, none⟩

/-- A `scrape_mode` session together with its consumption of the `job_item`
selector: lines 392-393 read `selectors['job_item']` with an ungated
subscript at the top of the page loop, before any item of the first page is
processed.  When the key is missing, the `KeyError` propagates to the outer
handler (line 528), which only prints; the function then returns the
records accumulated so far — none.  When the key is present, the page loop
runs as modelled by `runScrape` (the per-item consumption of the gated
selector keys is part of the item oracle). -/
def runScrapeWithSelectors (sel : List (String × JValue)) (full : Bool)
    (company : Option String) (startUrl : String) (pages : List PageSpec) :
    SessionSt × List JobData × List SEvent :=
  match dictGet sel "job_item" with
  | none => (⟨false, none⟩, [], [])
  | some _ => runScrape full company startUrl pages

/-! ## Helper lemmas -/

lemma dictGet_dictSet_self {α : Type} (d : List (String × α)) (k : String)
    (v : α) : dictGet (dictSet d k v) k = some v := by
  induction d with
  | nil => simp [dictGet, dictSet, List.find?_cons]
  | cons p t ih =>
      by_cases hp : p.1 = k
      · simp [dictGet, dictSet, hp, List.find?_cons]
      · simpa [dictGet, dictSet, hp, List.find?_cons] using ih

lemma dictGet_dictSet_ne {α : Type} (d : List (String × α)) (k k' : String)
    (v : α) (h : k ≠ k') : dictGet (dictSet d k' v) k = dictGet d k := by
  have h' : ¬ k' = k := fun hk => h hk.symm
  induction d with
  | nil => simp [dictGet, dictSet, List.find?_cons, h']
  | cons p t ih =>
      by_cases hp : p.1 = k'
      · have hpk : ¬ p.1 = k := by rw [hp]; exact h'
        simp [dictGet, dictSet, hp, hpk, List.find?_cons, h']
      · by_cases hk : p.1 = k
        · simp [dictGet, dictSet, hp, hk, List.find?_cons, h]
        · simpa [dictGet, dictSet, hp, hk, List.find?_cons] using ih

/-- Unfolding of the merge loop one fallback entry at a time. -/
lemma mergeDetails_cons (details : List (String × Option String))
    (kv : String × Option String) (fb : List (String × Option String)) :
    mergeDetails details (kv :: fb) =
      mergeDetails
        (match dictGet details kv.1 with
         | none => dictSet details kv.1 kv.2
         | some none => dictSet details kv.1 kv.2
         | some (some _) => details) fb := by
  unfold mergeDetails
  simp [List.foldl_cons]

/-- A non-null value already present is never overwritten by the merge. -/
lemma mergeDetails_preserves (fb : List (String × Option String)) :
    ∀ details k v, dictGet details k = some (some v) →
      dictGet (mergeDetails details fb) k = some (some v) := by
  induction fb with
  | nil => intro details k v h; simpa [mergeDetails] using h
  | cons kv fb ih =>
      intro details k v h
      rw [mergeDetails_cons]
      by_cases hk : k = kv.1
      · subst hk
        rw [h]
        exact ih details kv.1 v h
      · rcases hget : dictGet details kv.1 with _ | w
        · exact ih _ k v ((dictGet_dictSet_ne details k kv.1 kv.2 hk).trans h)
        · rcases w with _ | s
          · exact ih _ k v ((dictGet_dictSet_ne details k kv.1 kv.2 hk).trans h)
          · exact ih details k v h

/-- Keys the fallback dict does not mention are untouched by the merge. -/
lemma mergeDetails_untouched (fb : List (String × Option String)) :
    ∀ details k, k ∉ fb.map Prod.fst →
      dictGet (mergeDetails details fb) k = dictGet details k := by
  induction fb with
  | nil => intro details k _; simp [mergeDetails]
  | cons kv fb ih =>
      intro details k hk
      have hne : k ≠ kv.1 := by
        intro he; exact hk (by simp [he])
      have htail : k ∉ fb.map Prod.fst := fun hmem => hk (by simp [hmem])
      rw [mergeDetails_cons]
      rcases hget : dictGet details kv.1 with _ | w
      · rw [ih _ k htail, dictGet_dictSet_ne details k kv.1 kv.2 hne]
      · rcases w with _ | s
        · rw [ih _ k htail, dictGet_dictSet_ne details k kv.1 kv.2 hne]
        · exact ih details k htail

/-- A key that is absent or null in `details` receives the first fallback
value listed for it (assuming the fallback dict has no duplicate keys, as a
Python dict cannot). -/
lemma mergeDetails_fills (fb : List (String × Option String)) :
    ∀ details k w, (fb.map Prod.fst).Nodup →
      (dictGet details k = none ∨ dictGet details k = some none) →
      dictGet fb k = some w →
      dictGet (mergeDetails details fb) k = some w := by
  induction fb with
  | nil => intro details k w _ _ hfb; simp [dictGet] at hfb
  | cons kv fb ih =>
      intro details k w hnodup hnull hfb
      have hnodup' : (fb.map Prod.fst).Nodup := by
        simpa using hnodup.of_cons
      by_cases hk : kv.1 = k
      · have hw : kv.2 = w := by
          simpa [dictGet, List.find?_cons, hk] using hfb
        subst hw
        subst hk
        have hset : dictGet (dictSet details kv.1 kv.2) kv.1 = some kv.2 :=
          dictGet_dictSet_self details kv.1 kv.2
        have hnotin : kv.1 ∉ fb.map Prod.fst := by
          simpa using hnodup.not_mem
        rw [mergeDetails_cons]
        rcases hnull with hnull | hnull
        · rw [hnull, mergeDetails_untouched fb _ kv.1 hnotin, hset]
        · rw [hnull, mergeDetails_untouched fb _ kv.1 hnotin, hset]
      · have hfb' : dictGet fb k = some w := by
          simpa [dictGet, List.find?_cons, hk] using hfb
        rw [mergeDetails_cons]
        rcases hget : dictGet details kv.1 with _ | u
        · refine ih _ k w hnodup' ?_ hfb'
          rw [dictGet_dictSet_ne details k kv.1 kv.2 (fun he : k = kv.1 => hk he.symm)]
          exact hnull
        · rcases u with _ | s
          · refine ih _ k w hnodup' ?_ hfb'
            rw [dictGet_dictSet_ne details k kv.1 kv.2 (fun he : k = kv.1 => hk he.symm)]
            exact hnull
          · exact ih details k w hnodup' hnull hfb'

/-! ## Claims -/

/-- C7: when merging AI-extracted detail fields with fallback-extracted
detail fields, a fallback value is used for a key only if the AI result has
that key missing or null, a non-null AI value is never overridden, and
merging AI `{a: "x", b: null}` with fallback `{b: "y", c: "z"}` yields
`{a: "x", b: "y", c: "z"}`. -/
theorem claim_C7_merge_precedence :
    (∀ ai fb k v, dictGet ai k = some (some v) →
        dictGet (mergeDetails ai fb) k = some (some v))
    ∧ (∀ ai fb k w, (fb.map Prod.fst).Nodup →
        (dictGet ai k = none ∨ dictGet ai k = some none) →
        dictGet fb k = some w →
        dictGet (mergeDetails ai fb) k = some w)
    ∧ mergeDetails [("a", some "x"), ("b", none)] [("b", some "y"), ("c", some "z")]
        = [("a", some "x"), ("b", some "y"), ("c", some "z")] := by
  refine ⟨fun ai fb k v h => mergeDetails_preserves fb ai k v h,
          fun ai fb k w hn hnull hfb => mergeDetails_fills fb ai k w hn hnull hfb,
          by decide⟩

/-- Witness for C7 at concrete dicts: the AI value for `a` survives the
merge, the AI-null key `b` is filled from the fallback. -/
theorem claim_C7_merge_precedence_witness :
    dictGet (mergeDetails [("a", some "x"), ("b", none)] [("a", some "q"), ("b", some "y")]) "a"
        = some (some "x")
    ∧ dictGet (mergeDetails [("a", some "x"), ("b", none)] [("a", some "q"), ("b", some "y")]) "b"
        = some (some "y") := by
  constructor
  · exact claim_C7_merge_precedence.1 [("a", some "x"), ("b", none)]
      [("a", some "q"), ("b", some "y")] "a" "x" (by decide)
  · exact claim_C7_merge_precedence.2.1 [("a", some "x"), ("b", none)]
      [("a", some "q"), ("b", some "y")] "b" (some "y") (by decide) (Or.inr (by decide))
      (by decide)

/-- C6: `extract_job_id` resolves by a strict priority chain with first
match winning: (1) the href matched against the ordered URL patterns,
(2) the data attributes `data-id`, `data-job-id`, `data-position-id`, `id`
in that order, (3) the element text only if purely numeric; no match at any
stage yields null.  In particular an element with both a pattern-matching
href and a `data-job-id` attribute resolves via the URL pattern. -/
theorem claim_C6_job_id_priority :
    (∀ el h v w, getAttribute el "href" = some h → h ≠ "" →
        extractFromHref h = some v → getAttribute el "data-job-id" = some w →
        extract_job_id el = some v)
    ∧ (∀ el h v, getAttribute el "href" = some h → h ≠ "" →
        extractFromHref h = some v → extract_job_id el = some v)
    ∧ (∀ el, (∀ h, getAttribute el "href" = some h → h = "" ∨ extractFromHref h = none) →
        extract_job_id el =
          match dataAttrChain el with
          | some v => some v
          | none => textDigitsFallback el)
    ∧ (∀ el, (∀ h, getAttribute el "href" = some h → h = "" ∨ extractFromHref h = none) →
        dataAttrChain el = none → textDigitsFallback el = none →
        extract_job_id el = none)
    ∧ (∀ el t, textDigitsFallback el = some t →
        t ≠ "" ∧ t.toList.all Char.isDigit = true) := by
  have hstage2 : ∀ el, (∀ h, getAttribute el "href" = some h →
      h = "" ∨ extractFromHref h = none) →
      extract_job_id el =
        match dataAttrChain el with
        | some v => some v
        | none => textDigitsFallback el := by
    intro el hfail
    unfold extract_job_id
    rcases hh : getAttribute el "href" with _ | h
    · rfl
    · rcases hfail h hh with he | hex
      · simp [he]
      · by_cases he : h = ""
        · simp [he]
        · simp [he, hex]
  have hstage1 : ∀ el h v, getAttribute el "href" = some h → h ≠ "" →
      extractFromHref h = some v → extract_job_id el = some v := by
    intro el h v hh hne hex
    unfold extract_job_id
    rw [hh]
    simp [hne, hex]
  refine ⟨fun el h v w hh hne hex _ => hstage1 el h v hh hne hex,
          hstage1, hstage2, ?_, ?_⟩
  · intro el hfail hdata htext
    rw [hstage2 el hfail, hdata, htext]
  · intro el t ht
    simp only [textDigitsFallback] at ht
    split at ht
    · next hcond =>
        obtain ⟨h1, h2⟩ := hcond
        cases ht
        refine ⟨?_, by simpa using h2⟩
        intro he
        exact h1 (by simpa [String.ext_iff] using he)
    · cases ht

/-- Witness for C6: an element whose href matches `/job[s]?/(\w+)` and which
also carries `data-job-id` resolves from the URL pattern, not the attribute. -/
theorem claim_C6_job_id_priority_witness :
    extract_job_id ⟨[("href", "/jobs/12345"), ("data-job-id", "999")], ""⟩
      = some "12345" := by
  exact claim_C6_job_id_priority.1
    ⟨[("href", "/jobs/12345"), ("data-job-id", "999")], ""⟩
    "/jobs/12345" "12345" "999" rfl (by decide) (by decide) rfl

/-- C8 as stated fails at the cooldown boundary: with the default cooldown
of 5 minutes, a model marked at time 0 and checked at exactly time 300 is
still reported rate-limited by the code (`time_since > cooldown` is false),
while `now - mark < cooldownDuration` is false. -/
theorem claim_C8_counterexample :
    (isModelRateLimited [("gemini-1.5-flash", 0)] "gemini-1.5-flash"
        DEFAULT_COOLDOWN_MINUTES 300).1 = true
    ∧ ¬ ((300 : ℚ) - 0 < (DEFAULT_COOLDOWN_MINUTES : ℚ) * 60) := by
  constructor
  · norm_num [isModelRateLimited, lookupFlag, dictGet, DEFAULT_COOLDOWN_MINUTES,
      List.find?_cons]
  · norm_num [DEFAULT_COOLDOWN_MINUTES]

/-- C8 amended: `isCooled(model, cooldownDuration)` returns true iff a mark
exists and `now - mark ≤ cooldownDuration` (boundary inclusive); an expired
mark (`now - mark > cooldownDuration`) is removed by the check itself; an
unexpired mark leaves the flags unchanged; a model marked at `t0` is
reported cooled at `now` exactly when `now - t0 ≤ cooldownDuration`. -/
lemma isModelRateLimited_some (flags : List (String × ℚ)) (model : String)
    (cm : ℕ) (now mark : ℚ) (hl : lookupFlag flags model = some mark) :
    isModelRateLimited flags model cm now =
      if (cm : ℚ) * 60 < now - mark then
        (false, flags.filter fun p => p.1 ≠ model)
      else (true, flags) := by
  unfold isModelRateLimited
  rw [hl]

lemma isModelRateLimited_none (flags : List (String × ℚ)) (model : String)
    (cm : ℕ) (now : ℚ) (hl : lookupFlag flags model = none) :
    isModelRateLimited flags model cm now = (false, flags) := by
  unfold isModelRateLimited
  rw [hl]

theorem claim_C8_cooldown_boundary :
    ∀ flags model cm (now : ℚ),
      ((isModelRateLimited flags model cm now).1 = true ↔
        ∃ t, lookupFlag flags model = some t ∧ now - t ≤ (cm : ℚ) * 60)
      ∧ (∀ t, lookupFlag flags model = some t → (cm : ℚ) * 60 < now - t →
          lookupFlag (isModelRateLimited flags model cm now).2 model = none)
      ∧ (∀ t, lookupFlag flags model = some t → now - t ≤ (cm : ℚ) * 60 →
          (isModelRateLimited flags model cm now).2 = flags)
      ∧ (∀ t0, (isModelRateLimited (markModelRateLimited flags model t0)
            model cm now).1 = true ↔ now - t0 ≤ (cm : ℚ) * 60) := by
  have hfilter : ∀ (l : List (String × ℚ)) (model : String),
      dictGet (l.filter fun p => p.1 ≠ model) model = none := by
    intro l model
    have hfind : List.find? (fun p => decide (p.1 = model))
        (l.filter fun p => p.1 ≠ model) = none := by
      rw [List.find?_eq_none]
      intro x hx
      have h2 : x.1 ≠ model := by
        have h3 := (List.mem_filter.mp hx).2
        simp at h3
        exact h3
      simp [h2]
    simp [dictGet, hfind]
  intro flags model cm now
  refine ⟨?_, ?_, ?_, ?_⟩
  · rcases hl : lookupFlag flags model with _ | mark
    · rw [isModelRateLimited_none flags model cm now hl]
      simp [hl]
    · rw [isModelRateLimited_some flags model cm now mark hl]
      by_cases hc : (cm : ℚ) * 60 < now - mark
      · rw [if_pos hc]
        constructor
        · intro hfalse
          exact Bool.noConfusion hfalse
        · rintro ⟨t, ht, hle⟩
          obtain rfl : mark = t := by injection ht
          exact absurd hc (not_lt.mpr hle)
      · rw [if_neg hc]
        simp only [true_iff]
        exact ⟨mark, rfl, not_lt.mp hc⟩
  · intro t ht hc
    rw [isModelRateLimited_some flags model cm now t ht, if_pos hc]
    exact hfilter flags model
  · intro t ht hc
    rw [isModelRateLimited_some flags model cm now t ht, if_neg (not_lt.mpr hc)]
  · intro t0
    have hmark : lookupFlag (markModelRateLimited flags model t0) model = some t0 :=
      dictGet_dictSet_self flags model t0
    rw [isModelRateLimited_some _ model cm now t0 hmark]
    by_cases hc : (cm : ℚ) * 60 < now - t0
    · simp [hc, not_le.mpr hc]
    · simp [hc, not_lt.mp hc]

/-- Witness for C8 amended: a model marked at 0 is still cooled at 300 and
its mark survives; at 301 it is no longer cooled. -/
theorem claim_C8_cooldown_boundary_witness :
    (isModelRateLimited (markModelRateLimited [] "gemini-1.5-flash" 0)
        "gemini-1.5-flash" DEFAULT_COOLDOWN_MINUTES 300).1 = true
    ∧ (isModelRateLimited (markModelRateLimited [] "gemini-1.5-flash" 0)
        "gemini-1.5-flash" DEFAULT_COOLDOWN_MINUTES 301).1 = false := by
  constructor
  · exact (claim_C8_cooldown_boundary [] "gemini-1.5-flash"
      DEFAULT_COOLDOWN_MINUTES 300).2.2.2 0 |>.mpr (by norm_num [DEFAULT_COOLDOWN_MINUTES])
  · have h := (claim_C8_cooldown_boundary [] "gemini-1.5-flash"
      DEFAULT_COOLDOWN_MINUTES 301).2.2.2 0
    by_cases hb : (isModelRateLimited (markModelRateLimited [] "gemini-1.5-flash" 0)
        "gemini-1.5-flash" DEFAULT_COOLDOWN_MINUTES 301).1 = true
    · exact absurd (h.mp hb) (by norm_num [DEFAULT_COOLDOWN_MINUTES])
    · simpa using hb

lemma classifyGenericError_ne_success (msg : String)
    (fields : List (String × JValue)) :
    classifyGenericError msg ≠ .success fields := by
  unfold classifyGenericError
  split <;> exact fun h => GStep.noConfusion h

lemma processOutcome_success_inv (s : GStim) (fields : List (String × JValue))
    (h : processOutcome s = .success fields) : s = .parsed (.jobj fields) := by
  cases s with
  | emptyResp => exact absurd h (classifyGenericError_ne_success _ _)
  | jsonErr m => exact GStep.noConfusion h
  | apiErr m => exact absurd h (classifyGenericError_ne_success _ _)
  | parsed v =>
      cases v with
      | jobj f =>
          have h' : GStep.success f = GStep.success fields := h
          obtain rfl : f = fields := by injection h'
          rfl
      | jnull => exact absurd h (classifyGenericError_ne_success _ _)
      | jbool b => exact absurd h (classifyGenericError_ne_success _ _)
      | jnum isFloat q => exact absurd h (classifyGenericError_ne_success _ _)
      | jstr t => exact absurd h (classifyGenericError_ne_success _ _)
      | jarr xs => exact absurd h (classifyGenericError_ne_success _ _)

lemma runAttempts_success_src (m : String) (maxA : ℕ) :
    ∀ (stimuli : List GStim) (idx : ℕ) (fields : List (String × JValue)),
      (runAttempts m maxA stimuli idx).2 = some fields →
      ∃ k, stimuli.get? k = some (.parsed (.jobj fields)) := by
  intro stimuli
  induction stimuli with
  | nil => intro idx fields h; exact absurd h (by simp [runAttempts])
  | cons s rest ih =>
      intro idx fields h
      by_cases hle : maxA ≤ idx
      · rw [runAttempts, if_pos hle] at h
        exact absurd h (by simp)
      · rw [runAttempts, if_neg hle] at h
        rcases hps : processOutcome s with f | d | _
        all_goals rw [hps] at h
        · simp only at h
          obtain rfl : f = fields := by injection h
          exact ⟨0, by rw [processOutcome_success_inv s f hps]; rfl⟩
        · simp only at h
          by_cases hlt : idx + 1 < maxA
          · rw [if_pos hlt] at h
            obtain ⟨k, hk⟩ := ih (idx + 1) fields h
            exact ⟨k + 1, hk⟩
          · rw [if_neg hlt] at h
            exact absurd h (by simp)
        · exact absurd h (by simp)

lemma runFallback_returns_parsed :
    ∀ (hierarchy : List String) (cooled initOk : String → Bool)
      (stimuli : String → List GStim) (fields : List (String × JValue)),
      (runFallback cooled initOk stimuli hierarchy).2 = some fields →
      ∃ m, m ∈ hierarchy ∧
        ∃ k, (stimuli m).get? k = some (.parsed (.jobj fields)) := by
  intro hierarchy
  induction hierarchy with
  | nil => intro cooled initOk stimuli fields h; exact absurd h (by simp [runFallback])
  | cons m ms ih =>
      intro cooled initOk stimuli fields h
      rw [runFallback] at h
      by_cases hc : cooled m
      · rw [if_pos hc] at h
        simp only at h
        obtain ⟨m', hmem, hk⟩ := ih cooled initOk stimuli fields h
        exact ⟨m', List.mem_cons_of_mem m hmem, hk⟩
      · rw [if_neg hc] at h
        by_cases hi : initOk m
        · rw [if_pos hi] at h
          simp only at h
          rcases hra : (runAttempts m MAX_RETRY_ATTEMPTS (stimuli m) 0).2 with _ | f
          all_goals rw [hra] at h
          · simp only at h
            obtain ⟨m', hmem, hk⟩ := ih cooled initOk stimuli fields h
            exact ⟨m', List.mem_cons_of_mem m hmem, hk⟩
          · simp only at h
            obtain rfl : f = fields := by injection h
            obtain ⟨k, hk⟩ := runAttempts_success_src m MAX_RETRY_ATTEMPTS
              (stimuli m) 0 _ hra
            exact ⟨m, List.mem_cons_self m ms, k, hk⟩
        · rw [if_neg hi] at h
          simp only at h
          obtain ⟨m', hmem, hk⟩ := ih cooled initOk stimuli fields h
          exact ⟨m', List.mem_cons_of_mem m hmem, hk⟩

/-- C10: `call_gemini_with_fallback` returns either null or a parsed JSON
object.  A response whose text parses to valid JSON that is not an object
(array, string, number, boolean, or null) is never returned: the
`.items()` validation raises `AttributeError`, whose message contains no
quota keyword, so the attempt is a retryable non-quota failure; whatever the
client does return came from an attempt that parsed to an object. -/
theorem claim_C10_returns_dict_or_none :
    (∀ v : JValue, v.isObj = false →
        processOutcome (.parsed v) = .retryStep RETRY_DELAY_SECONDS)
    ∧ (∀ (cooled initOk : String → Bool) (stimuli : String → List GStim)
        (hierarchy : List String) (fields : List (String × JValue)),
        (runFallback cooled initOk stimuli hierarchy).2 = some fields →
        ∃ m, m ∈ hierarchy ∧
          ∃ k, (stimuli m).get? k = some (.parsed (.jobj fields))) := by
  constructor
  · intro v hv
    cases v with
    | jobj f => exact absurd hv (by simp [JValue.isObj])
    | jnull => rfl
    | jbool b => rfl
    | jnum isFloat q => cases isFloat <;> rfl
    | jstr t => rfl
    | jarr xs => rfl
  · intro cooled initOk stimuli hierarchy fields h
    exact runFallback_returns_parsed hierarchy cooled initOk stimuli fields h

/-- Witness for C10: a parsed JSON array is classified as a retryable
non-quota failure, and a concrete run that does return a dict got it from a
parsed-object attempt. -/
theorem claim_C10_returns_dict_or_none_witness :
    processOutcome (.parsed (.jarr [])) = .retryStep RETRY_DELAY_SECONDS
    ∧ ∃ m, m ∈ ["gemini-1.5-flash"] ∧
        ∃ k, ([GStim.parsed (.jobj [("job_item", JValue.jstr "div.card")])].get? k)
          = some (.parsed (.jobj [("job_item", JValue.jstr "div.card")])) := by
  constructor
  · exact claim_C10_returns_dict_or_none.1 (.jarr []) rfl
  · exact claim_C10_returns_dict_or_none.2 (fun _ => false) (fun _ => true)
      (fun _ => [.parsed (.jobj [("job_item", JValue.jstr "div.card")])])
      ["gemini-1.5-flash"] [("job_item", JValue.jstr "div.card")] rfl

lemma runAttempts_quota (m msg : String) :
    ∀ (pre : List GStim) (rest : List GStim) (idx : ℕ),
      (∀ s ∈ pre, processOutcome s = .retryStep RETRY_DELAY_SECONDS) →
      isQuotaError msg = true →
      idx + pre.length < MAX_RETRY_ATTEMPTS →
      runAttempts m MAX_RETRY_ATTEMPTS (pre ++ .apiErr msg :: rest) idx =
        (retryEvents m idx pre ++
          [.attemptEv m (idx + pre.length), .markCooledEv m], none) := by
  intro pre
  induction pre with
  | nil =>
      intro rest idx hpre hq hlen
      have hnle : ¬ MAX_RETRY_ATTEMPTS ≤ idx := by
        simp only [List.length_nil, Nat.add_zero] at hlen
        omega
      have hstep : processOutcome (.apiErr msg) = .quotaBreak := by
        simp [processOutcome, classifyGenericError, hq]
      rw [List.nil_append, runAttempts, if_neg hnle, hstep]
      simp [retryEvents]
  | cons s pre ih =>
      intro rest idx hpre hq hlen
      have hlen' : (idx + 1) + pre.length < MAX_RETRY_ATTEMPTS := by
        simp only [List.length_cons] at hlen
        omega
      have hnle : ¬ MAX_RETRY_ATTEMPTS ≤ idx := by omega
      have hlt : idx + 1 < MAX_RETRY_ATTEMPTS := by omega
      have hstep := hpre s (by simp)
      rw [List.cons_append, runAttempts, if_neg hnle, hstep]
      simp only
      rw [if_pos hlt]
      have ihres := ih rest (idx + 1) (fun x hx => hpre x (by simp [hx])) hq hlen'
      simp only [ihres, retryEvents, List.cons_append, List.length_cons]
      have harith : idx + 1 + pre.length = idx + (pre.length + 1) := by omega
      rw [harith]

lemma runFallback_prefix_fails (cooled initOk : String → Bool)
    (stimuli : String → List GStim) :
    ∀ (hs1 t : List String),
      (∀ m' ∈ hs1, modelFails cooled initOk stimuli m') →
      (runFallback cooled initOk stimuli (hs1 ++ t)).2 =
        (runFallback cooled initOk stimuli t).2 := by
  intro hs1
  induction hs1 with
  | nil => intro t _; rfl
  | cons m hs ih =>
      intro t hfail
      have hm := hfail m (by simp)
      have htail := fun x hx => hfail x (List.mem_cons_of_mem m hx)
      rw [List.cons_append, runFallback]
      by_cases hc : cooled m
      · rw [if_pos hc]
        simpa using ih t htail
      · rw [if_neg hc]
        by_cases hi : initOk m
        · rw [if_pos hi]
          have hra : (runAttempts m MAX_RETRY_ATTEMPTS (stimuli m) 0).2 = none := by
            rcases hm with hm | hm | hm
            · exact absurd hm hc
            · exact absurd hi (by simp [hm])
            · exact hm
          simp only
          rw [hra]
          simpa using ih t htail
        · rw [if_neg hi]
          simpa using ih t htail

/-- C1 as stated is false on the code: an attempt whose error description
contains a quota/rate-limit token is not always switched away from.  A JSON
parse failure with message `Expecting ',' delimiter: line 1 column 10
(char 9)` contains the token `limit` (inside `delimiter`), yet it is caught
by the dedicated `except json.JSONDecodeError` clause, so the model is
retried after the fixed sleep and never marked cooled down. -/
theorem claim_C1_counterexample :
    isQuotaError "Expecting \x27,\x27 delimiter: line 1 column 10 (char 9)" = true
    ∧ (runAttempts "gemini-1.5-flash" MAX_RETRY_ATTEMPTS
        (List.replicate 3
          (.jsonErr "Expecting \x27,\x27 delimiter: line 1 column 10 (char 9)")) 0).1
      = [.attemptEv "gemini-1.5-flash" 0, .retrySleepEv RETRY_DELAY_SECONDS,
         .attemptEv "gemini-1.5-flash" 1, .retrySleepEv RETRY_DELAY_SECONDS,
         .attemptEv "gemini-1.5-flash" 2]
    ∧ GEvent.markCooledEv "gemini-1.5-flash" ∉
        (runAttempts "gemini-1.5-flash" MAX_RETRY_ATTEMPTS
          (List.replicate 3
            (.jsonErr "Expecting \x27,\x27 delimiter: line 1 column 10 (char 9)")) 0).1
    ∧ GEvent.retrySleepEv RETRY_DELAY_SECONDS ∈
        (runAttempts "gemini-1.5-flash" MAX_RETRY_ATTEMPTS
          (List.replicate 3
            (.jsonErr "Expecting \x27,\x27 delimiter: line 1 column 10 (char 9)")) 0).1 := by
  refine ⟨by decide, by decide, by decide, by decide⟩

/-- C1 amended: whenever an attempt fails with an error other than a JSON
parse error and its description contains a quota/rate-limit token, the
client marks that model cooled down and advances to the next model
immediately — the model's attempt trace ends with the quota attempt followed
directly by the cooldown mark (no retry of that model, no retry-delay sleep
on the transition), the rest of the run is exactly the run of the remaining
hierarchy, and this holds at every hierarchy position (after any prefix of
failing models) and every attempt number. -/
theorem claim_C1_quota_fast_switch :
    ∀ (cooled initOk : String → Bool) (stimuli : String → List GStim)
      (hs1 ms : List String) (m : String) (pre rest : List GStim) (msg : String),
      (∀ m' ∈ hs1, modelFails cooled initOk stimuli m') →
      cooled m = false → initOk m = true →
      stimuli m = pre ++ .apiErr msg :: rest →
      (∀ s ∈ pre, processOutcome s = .retryStep RETRY_DELAY_SECONDS) →
      pre.length < MAX_RETRY_ATTEMPTS →
      isQuotaError msg = true →
      runAttempts m MAX_RETRY_ATTEMPTS (stimuli m) 0 =
        (retryEvents m 0 pre ++ [.attemptEv m pre.length, .markCooledEv m], none)
      ∧ (runFallback cooled initOk stimuli (m :: ms)).1 =
          retryEvents m 0 pre ++ [.attemptEv m pre.length, .markCooledEv m]
            ++ (runFallback cooled initOk stimuli ms).1
      ∧ (runFallback cooled initOk stimuli (hs1 ++ m :: ms)).2 =
          (runFallback cooled initOk stimuli ms).2 := by
  intro cooled initOk stimuli hs1 ms m pre rest msg hfail hc hi hstim hpre hlen hq
  have h1 : runAttempts m MAX_RETRY_ATTEMPTS (stimuli m) 0 =
      (retryEvents m 0 pre ++ [.attemptEv m pre.length, .markCooledEv m], none) := by
    rw [hstim]
    have := runAttempts_quota m msg pre rest 0 hpre hq (by simpa using hlen)
    simpa using this
  have hcf : ¬ cooled m = true := by simp [hc]
  refine ⟨h1, ?_, ?_⟩
  · rw [runFallback, if_neg hcf, if_pos hi]
    simp only [h1]
  · rw [runFallback_prefix_fails cooled initOk stimuli hs1 (m :: ms) hfail,
      runFallback, if_neg hcf, if_pos hi]
    simp only [h1]

/-- Witness for C1 amended: with the primary model hitting a quota error on
its first attempt, the run result is exactly the fallback model's result,
and the primary's trace is the single attempt followed by the cooldown
mark. -/
theorem claim_C1_quota_fast_switch_witness :
    (runFallback (fun _ => false) (fun _ => true)
        (fun name => if name = "gemini-1.5-flash"
          then [.apiErr "429 You exceeded your current quota"]
          else [.parsed (.jobj [("job_item", .jstr "div.card")])])
        ["gemini-1.5-flash", "gemini-1.5-pro"]).2
      = some [("job_item", JValue.jstr "div.card")]
    ∧ (runAttempts "gemini-1.5-flash" MAX_RETRY_ATTEMPTS
        ((fun name => if name = "gemini-1.5-flash"
          then [GStim.apiErr "429 You exceeded your current quota"]
          else [.parsed (.jobj [("job_item", .jstr "div.card")])])
          "gemini-1.5-flash") 0)
      = ([.attemptEv "gemini-1.5-flash" 0, .markCooledEv "gemini-1.5-flash"], none) := by
  have h := claim_C1_quota_fast_switch (fun _ => false) (fun _ => true)
    (fun name => if name = "gemini-1.5-flash"
      then [.apiErr "429 You exceeded your current quota"]
      else [.parsed (.jobj [("job_item", .jstr "div.card")])])
    [] ["gemini-1.5-pro"] "gemini-1.5-flash" [] []
    "429 You exceeded your current quota"
    (by simp) rfl rfl (by simp) (by simp) (by decide) (by decide)
  constructor
  · rw [show (["gemini-1.5-flash", "gemini-1.5-pro"] : List String)
        = [] ++ "gemini-1.5-flash" :: ["gemini-1.5-pro"] from rfl, h.2.2]
    rfl
  · simpa [retryEvents] using h.1

/-- C5 as stated is false on the code: `call_gemini_with_fallback` returns
the parsed dict verbatim, with no key normalization against the schema.  A
response that parses to `{"foo": "x"}` is returned with key set `["foo"]`,
which is not the schema key set, and the missing schema keys are not added
as null entries — and the consumer does not repair this either: feeding
that map to `scrape_mode` hits the ungated `selectors['job_item']`
subscript, whose `KeyError` ends the scrape with zero records instead of
treating the missing key as null. -/
theorem claim_C5_counterexample :
    ((runFallback (fun _ => false) (fun _ => true)
        (fun _ => [.parsed (.jobj [("foo", .jstr "x")])])
        ["gemini-1.5-flash"]).2.map fun fields => fields.map Prod.fst)
      = some ["foo"]
    ∧ (["foo"] : List String) ≠ LIST_SCHEMA_KEYS
    ∧ "job_item" ∉ (["foo"] : List String)
    ∧ (runScrapeWithSelectors [("foo", .jstr "x")] true (some "acme")
        "https://ex.com/list" []).2.1 = [] := by
  refine ⟨rfl, by decide, by decide, rfl⟩

/-- C5 amended: the Model Fallback Client returns the parsed JSON object
verbatim, whatever its key set.  At the point of use, field-completeness
holds for every schema key the scraper reads through `selectors.get` —
`title`, `location`, `job_link`, `job_id`, `description`, and
`pagination_next` via its membership test: for those, a key missing from
the returned map and a key bound to JSON null behave identically (no usable
selector), and bindings for keys outside the schema never affect their
reads.  The `job_item` key is the exception: lines 392-393 subscript it
ungated, so a returned map missing `job_item` does not degrade to null —
the `KeyError` reaches the outer handler and the scrape ends with no
records, while a map carrying `job_item` runs the page loop normally. -/
theorem claim_C5_field_complete_consumption :
    (∀ (cooled initOk : String → Bool) (stimuli : String → List GStim)
        (hierarchy : List String) (fields : List (String × JValue)),
        (runFallback cooled initOk stimuli hierarchy).2 = some fields →
        ∃ m, m ∈ hierarchy ∧
          ∃ k, (stimuli m).get? k = some (.parsed (.jobj fields)))
    ∧ (∀ (sel : List (String × JValue)) (k : String),
        k ∉ sel.map Prod.fst → effectiveSelector sel k = none)
    ∧ (∀ (sel : List (String × JValue)) (k : String),
        selectorsGet sel k = some .jnull → effectiveSelector sel k = none)
    ∧ (∀ (sel : List (String × JValue)) (k k2 : String) (v : JValue),
        k ≠ k2 →
        effectiveSelector (sel ++ [(k2, v)]) k = effectiveSelector sel k)
    ∧ (∀ (sel : List (String × JValue)) (full : Bool) (company : Option String)
        (startUrl : String) (pages : List PageSpec),
        dictGet sel "job_item" = none →
        (runScrapeWithSelectors sel full company startUrl pages).2.1 = []
        ∧ (runScrapeWithSelectors sel full company startUrl pages).2.2 = [])
    ∧ (∀ (sel : List (String × JValue)) (v : JValue) (full : Bool)
        (company : Option String) (startUrl : String) (pages : List PageSpec),
        dictGet sel "job_item" = some v →
        runScrapeWithSelectors sel full company startUrl pages
          = runScrape full company startUrl pages) := by
  refine ⟨?_, ?_, ?_, ?_, ?_, ?_⟩
  · intro cooled initOk stimuli hierarchy fields h
    exact runFallback_returns_parsed hierarchy cooled initOk stimuli fields h
  · intro sel k hk
    have hget : selectorsGet sel k = none := by
      unfold selectorsGet dictGet
      rw [List.find?_eq_none.mpr]
      · rfl
      · intro x hx
        simp only [decide_eq_true_eq]
        intro he
        exact hk (List.mem_map.mpr ⟨x, hx, he⟩)
    simp [effectiveSelector, hget]
  · intro sel k hnull
    simp [effectiveSelector, hnull]
  · intro sel k k2 v hne
    have hne2 : ¬ k2 = k := fun h => hne h.symm
    have hfind : List.find? (fun p => decide (p.1 = k)) (sel ++ [(k2, v)])
        = List.find? (fun p => decide (p.1 = k)) sel := by
      rw [List.find?_append]
      have h2 : List.find? (fun p => decide (p.1 = k))
          ([(k2, v)] : List (String × JValue)) = none := by
        simp [List.find?_cons, hne2]
      rw [h2, Option.or_none]
    simp [effectiveSelector, selectorsGet, dictGet, hfind]
  · intro sel full company startUrl pages hnone
    unfold runScrapeWithSelectors
    rw [hnone]
    exact ⟨rfl, rfl⟩
  · intro sel v full company startUrl pages hsome
    unfold runScrapeWithSelectors
    rw [hsome]

/-- Witness for C5 amended: a missing gated schema key reads as no selector,
a null value reads as no selector, an extra key does not disturb a schema
key's read, a selector map without `job_item` yields zero records and zero
events, and one carrying `job_item` runs the scrape proper. -/
theorem claim_C5_field_complete_consumption_witness :
    effectiveSelector [("foo", .jstr "x")] "title" = none
    ∧ effectiveSelector [("title", .jnull)] "title" = none
    ∧ effectiveSelector ([("title", .jstr "h3")] ++ [("foo", .jstr "x")]) "title"
        = effectiveSelector [("title", .jstr "h3")] "title"
    ∧ (runScrapeWithSelectors [("foo", .jstr "x")] true (some "acme")
        "https://ex.com/list" []).2.1 = []
    ∧ (runScrapeWithSelectors [("foo", .jstr "x")] true (some "acme")
        "https://ex.com/list" []).2.2 = []
    ∧ runScrapeWithSelectors [("job_item", .jstr ".job")] true (some "acme")
        "https://ex.com/list" []
        = runScrape true (some "acme") "https://ex.com/list" [] := by
  have h5 := claim_C5_field_complete_consumption.2.2.2.2.1
    [("foo", .jstr "x")] true (some "acme") "https://ex.com/list" [] rfl
  refine ⟨claim_C5_field_complete_consumption.2.1 [("foo", .jstr "x")]
      "title" (by decide),
    claim_C5_field_complete_consumption.2.2.1 [("title", .jnull)] "title" rfl,
    claim_C5_field_complete_consumption.2.2.2.1 [("title", .jstr "h3")]
      "title" "foo" (.jstr "x") (by decide),
    h5.1, h5.2,
    claim_C5_field_complete_consumption.2.2.2.2.2
      [("job_item", .jstr ".job")] (.jstr ".job") true (some "acme")
      "https://ex.com/list" [] rfl⟩

/-- In-window behavior of one `wait_for_rate_limit` call: with no minute
reset pending, the slept time decomposes into the window-cap remainder (only
when the counter has reached the cap) plus the minimum-interval remainder. -/
lemma waitForRateLimit_inWindow (cap : ℕ) (minI : ℚ) (st : RateState) (now : ℚ)
    (hwin : now - st.minuteStartTime < 60) :
    (st.requestCount < cap →
        (waitForRateLimit cap minI st now).1 =
          max 0 (minI - (now - st.lastRequestTime)))
    ∧ (cap ≤ st.requestCount →
        (waitForRateLimit cap minI st now).1 =
          (60 - (now - st.minuteStartTime)) +
            max 0 (minI - (now - st.lastRequestTime)))
    ∧ (st.requestCount < cap →
        (waitForRateLimit cap minI st now).2 =
          ⟨now + (waitForRateLimit cap minI st now).1,
           st.requestCount + 1, st.minuteStartTime⟩) := by
  have hnres : ¬ (60 ≤ now - st.minuteStartTime) := not_le.mpr hwin
  have hmax : (if now - st.lastRequestTime < minI then
        minI - (now - st.lastRequestTime) else 0)
      = max 0 (minI - (now - st.lastRequestTime)) := by
    split_ifs with hgap
    · exact (max_eq_right (by linarith)).symm
    · exact (max_eq_left (by linarith)).symm
  refine ⟨?_, ?_, ?_⟩
  · intro hcount
    have hcap : ¬ (((cap ≤ st.requestCount : Bool) = true)
        ∧ (0 : ℚ) < 60 - (now - st.minuteStartTime)) := by
      rintro ⟨h1, -⟩
      exact absurd (by simpa using h1) (not_le.mpr hcount)
    simp only [waitForRateLimit, if_neg hnres, if_neg hcap]
    rw [zero_add, hmax]
  · intro hcount
    have hcap : (((cap ≤ st.requestCount : Bool) = true)
        ∧ (0 : ℚ) < 60 - (now - st.minuteStartTime)) :=
      ⟨by simpa using hcount, by linarith⟩
    simp only [waitForRateLimit, if_neg hnres, if_pos hcap]
    rw [hmax]
  · intro hcount
    have hcap : ¬ (((cap ≤ st.requestCount : Bool) = true)
        ∧ (0 : ℚ) < 60 - (now - st.minuteStartTime)) := by
      rintro ⟨h1, -⟩
      exact absurd (by simpa using h1) (not_le.mpr hcount)
    simp only [waitForRateLimit, if_neg hnres, if_neg hcap]

/-- C4 as stated is false on the code: two calls granted inside one window
with the counter far below the cap can still sleep, because of the
independent minimum-interval rule (free tier: `60/15 + 5 = 9` seconds).
After a request granted at time 1000 (counter 1, window start 1000), a call
at 1001 — inside the window, cap 15 not reached — sleeps 8 seconds. -/
theorem claim_C4_counterexample :
    runRateCalls GEMINI_REQUESTS_PER_MINUTE GEMINI_MIN_REQUEST_INTERVAL
        ⟨1000, 1, 1000⟩ [1001] = [8]
    ∧ 1 + 1 ≤ GEMINI_REQUESTS_PER_MINUTE
    ∧ (1001 : ℚ) - 1000 < 60
    ∧ (8 : ℚ) ≠ 0 := by
  refine ⟨?_, by norm_num [GEMINI_REQUESTS_PER_MINUTE], by norm_num, by norm_num⟩
  norm_num [runRateCalls, waitForRateLimit, GEMINI_MIN_REQUEST_INTERVAL,
    GEMINI_REQUESTS_PER_MINUTE, GEMINI_RATE_LIMIT_BUFFER]

/-- C4 amended: inside one rate window a call with the counter below the
cap incurs no window-cap sleep — it sleeps exactly the minimum-interval
remainder `max 0 (minInterval − (now − lastRequest))`, which is zero when
calls are spaced at least the minimum interval apart; a whole sequence of
such spaced in-window calls that keeps the counter at or below the cap
sleeps zero on every call; and the call that finds the counter at the cap
sleeps the window remainder `60 − (now − windowStart)` plus that same
minimum-interval remainder, not exactly the window remainder. -/
theorem claim_C4_rate_limiter :
    (∀ (cap : ℕ) (minI : ℚ) (st : RateState) (now : ℚ),
        now - st.minuteStartTime < 60 →
        (st.requestCount < cap →
            (waitForRateLimit cap minI st now).1 =
              max 0 (minI - (now - st.lastRequestTime)))
        ∧ (cap ≤ st.requestCount →
            (waitForRateLimit cap minI st now).1 =
              (60 - (now - st.minuteStartTime)) +
                max 0 (minI - (now - st.lastRequestTime)))
        ∧ (st.requestCount < cap → minI ≤ now - st.lastRequestTime →
            (waitForRateLimit cap minI st now).1 = 0))
    ∧ (∀ (cap : ℕ) (minI : ℚ) (st : RateState) (times : List ℚ),
        spacedB minI st.lastRequestTime times = true →
        inWindowB st.minuteStartTime times = true →
        st.requestCount + times.length ≤ cap →
        runRateCalls cap minI st times = List.replicate times.length 0) := by
  constructor
  · intro cap minI st now hwin
    obtain ⟨h1, h2, h3⟩ := waitForRateLimit_inWindow cap minI st now hwin
    refine ⟨h1, h2, ?_⟩
    intro hcount hgap
    rw [h1 hcount, max_eq_left (by linarith)]
  · intro cap minI st times
    induction times generalizing st with
    | nil => intro _ _ _; rfl
    | cons t ts ih =>
        intro hsp hwin hcnt
        simp only [spacedB, Bool.and_eq_true, decide_eq_true_eq] at hsp
        obtain ⟨hgap, hsp'⟩ := hsp
        simp only [inWindowB, List.all_cons, Bool.and_eq_true,
          decide_eq_true_eq] at hwin
        obtain ⟨⟨hws, hwlt⟩, hwin'⟩ := hwin
        have hwin2 : inWindowB st.minuteStartTime ts = true := by
          simp only [inWindowB]
          exact hwin'
        have hcount : st.requestCount < cap := by
          simp only [List.length_cons] at hcnt
          omega
        obtain ⟨h1, -, h3⟩ :=
          waitForRateLimit_inWindow cap minI st t (by linarith)
        have hzero : (waitForRateLimit cap minI st t).1 = 0 := by
          rw [h1 hcount, max_eq_left (by linarith)]
        have hstate : (waitForRateLimit cap minI st t).2 =
            ⟨t, st.requestCount + 1, st.minuteStartTime⟩ := by
          rw [h3 hcount, hzero, add_zero]
        rw [runRateCalls, hzero, hstate, List.length_cons, List.replicate_succ]
        congr 1
        exact ih ⟨t, st.requestCount + 1, st.minuteStartTime⟩ hsp' hwin2
          (by
            simp only [List.length_cons] at hcnt
            show st.requestCount + 1 + ts.length ≤ cap
            omega)

/-- Witness for C4 amended: from a fresh window, two calls spaced exactly
the free-tier minimum interval apart sleep zero each, and a single call one
second after the previous request sleeps eight seconds, matching the
minimum-interval remainder. -/
theorem claim_C4_rate_limiter_witness :
    runRateCalls 15 9 ⟨1000, 0, 1000⟩ [1009, 1018] = [0, 0]
    ∧ (waitForRateLimit 15 9 ⟨1000, 1, 1000⟩ 1001).1
        = max 0 (9 - ((1001 : ℚ) - 1000)) := by
  constructor
  · have h := claim_C4_rate_limiter.2 15 9 ⟨1000, 0, 1000⟩ [1009, 1018]
      (by norm_num [spacedB]) (by norm_num [inWindowB]) (by norm_num)
    simpa using h
  · exact ((claim_C4_rate_limiter.1 15 9 ⟨1000, 1, 1000⟩ 1001 (by norm_num)).1
      (by norm_num))

lemma countDiscoveryCalls_append (a c : List SEvent) :
    countDiscoveryCalls (a ++ c) = countDiscoveryCalls a + countDiscoveryCalls c := by
  simp [countDiscoveryCalls, List.filter_append]

/-- The remaining discovery-call budget of a session state: one Gemini
detail-schema call before the analyzed flag is set, none after. -/
def callBudget (st : SessionSt) : ℕ := if st.analyzed then 0 else 1

lemma processItem_budget (full : Bool) (company : Option String) (p i : ℕ)
    (it : ItemSpec) (b : Browser) (st : SessionSt) :
    countDiscoveryCalls (processItem full company p i it b st).2.2.2
      + callBudget (processItem full company p i it b st).2.1
      ≤ callBudget st := by
  unfold processItem
  cases hbr : it.baseRaises
  case true => simp [countDiscoveryCalls]
  case false =>
    cases hl : resolveLink b.url it.link
    case none => simp [countDiscoveryCalls]
    case some u =>
      by_cases hfu : full = true ∧ ¬ u = ""
      case pos =>
        by_cases han : st.analyzed = true
        · simp [hfu, han, countDiscoveryCalls, callBudget, discoveryStep]
        · have han2 : st.analyzed = false := by simpa using han
          by_cases hi : i = 0
          · cases hdisc : it.discovery with
            | navRaises =>
                simp [hfu, han2, hi, hdisc, countDiscoveryCalls, callBudget,
                  discoveryStep]
            | geminiReturns r =>
                simp [hfu, han2, hi, hdisc, countDiscoveryCalls, callBudget,
                  discoveryStep]
          · simp [hfu, han2, hi, countDiscoveryCalls, callBudget, discoveryStep]
      case neg =>
        simp [hfu, countDiscoveryCalls]

lemma processItems_cons (full : Bool) (company : Option String) (p : ℕ)
    (it : ItemSpec) (rest : List ItemSpec) (i : ℕ) (b : Browser) (st : SessionSt) :
    processItems full company p (it :: rest) i b st =
      ((processItems full company p rest (i + 1)
          (processItem full company p i it b st).1
          (processItem full company p i it b st).2.1).1,
       (processItems full company p rest (i + 1)
          (processItem full company p i it b st).1
          (processItem full company p i it b st).2.1).2.1,
       (processItem full company p i it b st).2.2.1.toList ++
         (processItems full company p rest (i + 1)
            (processItem full company p i it b st).1
            (processItem full company p i it b st).2.1).2.2.1,
       (processItem full company p i it b st).2.2.2 ++
         (processItems full company p rest (i + 1)
            (processItem full company p i it b st).1
            (processItem full company p i it b st).2.1).2.2.2) := rfl

lemma processItems_budget (full : Bool) (company : Option String) (p : ℕ) :
    ∀ (items : List ItemSpec) (i : ℕ) (b : Browser) (st : SessionSt),
      countDiscoveryCalls (processItems full company p items i b st).2.2.2
        + callBudget (processItems full company p items i b st).2.1
        ≤ callBudget st := by
  intro items
  induction items with
  | nil => intro i b st; simp [processItems, countDiscoveryCalls]
  | cons it rest ih =>
      intro i b st
      have h1 := processItem_budget full company p i it b st
      have h2 := ih (i + 1) (processItem full company p i it b st).1
        (processItem full company p i it b st).2.1
      rw [processItems_cons]
      dsimp only
      rw [countDiscoveryCalls_append]
      omega

lemma runPages_budget (full : Bool) (company : Option String) :
    ∀ (pages : List PageSpec) (pi : ℕ) (b : Browser) (st : SessionSt),
      countDiscoveryCalls (runPages full company pages pi b st).2.2
        + callBudget (runPages full company pages pi b st).1
        ≤ callBudget st := by
  intro pages
  induction pages with
  | nil => intro pi b st; simp [runPages, countDiscoveryCalls]
  | cons p rest ih =>
      intro pi b st
      rw [runPages]
      by_cases hempty : p.items.isEmpty = true
      · rw [if_pos hempty]
        simp [countDiscoveryCalls]
      · rw [if_neg hempty]
        have h1 := processItems_budget full company pi p.items 0 b st
        have hP : countDiscoveryCalls
            [SEvent.paginationCheck pi
              (processItems full company pi p.items 0 b st).1.url] = 0 := by
          simp [countDiscoveryCalls]
        rcases rest with _ | ⟨q, rest2⟩
        · rw [countDiscoveryCalls_append, hP, Nat.add_zero]
          exact h1
        · cases hnx : p.nextEnabled
          · simp only [hnx]
            rw [countDiscoveryCalls_append, hP, Nat.add_zero]
            exact h1
          · simp only [hnx]
            have h2 := ih (pi + 1) ⟨q.listUrl⟩
              (processItems full company pi p.items 0 b st).2.1
            rw [countDiscoveryCalls_append, countDiscoveryCalls_append, hP,
              Nat.add_zero, Nat.add_assoc]
            exact le_trans (Nat.add_le_add_left h2 _) h1

lemma processItem_analyzed (full : Bool) (company : Option String) (p i : ℕ)
    (it : ItemSpec) (b : Browser) (st : SessionSt) (han : st.analyzed = true) :
    (processItem full company p i it b st).2.1 = st
    ∧ (∀ q j, SEvent.discoveryAttempted q j ∉
        (processItem full company p i it b st).2.2.2)
    ∧ (∀ q j, SEvent.discoveryCalled q j ∉
        (processItem full company p i it b st).2.2.2)
    ∧ (∀ q j sch, SEvent.detailFetch q j sch ∈
          (processItem full company p i it b st).2.2.2 →
        sch = usedSchema st) := by
  unfold processItem
  cases hbr : it.baseRaises
  case true => simp
  case false =>
    cases hl : resolveLink b.url it.link
    case none => simp
    case some u =>
      by_cases hfu : full = true ∧ ¬ u = ""
      · have hcond : ¬ (¬ st.analyzed = true ∧ i = 0) := fun hh => hh.1 han
        simp [hfu, hfu.2, hcond, han, discoveryStep]
      · simp [hfu]

lemma processItems_analyzed (full : Bool) (company : Option String) (p : ℕ) :
    ∀ (items : List ItemSpec) (i : ℕ) (b : Browser) (st : SessionSt),
      st.analyzed = true →
      (processItems full company p items i b st).2.1 = st
      ∧ (∀ q j, SEvent.discoveryAttempted q j ∉
          (processItems full company p items i b st).2.2.2)
      ∧ (∀ q j, SEvent.discoveryCalled q j ∉
          (processItems full company p items i b st).2.2.2)
      ∧ (∀ q j sch, SEvent.detailFetch q j sch ∈
            (processItems full company p items i b st).2.2.2 →
          sch = usedSchema st) := by
  intro items
  induction items with
  | nil => intro i b st _; simp [processItems]
  | cons it rest ih =>
      intro i b st han
      obtain ⟨hst1, hA1, hC1, hF1⟩ := processItem_analyzed full company p i it b st han
      obtain ⟨hst2, hA2, hC2, hF2⟩ := ih (i + 1)
        (processItem full company p i it b st).1
        (processItem full company p i it b st).2.1 (by rw [hst1]; exact han)
      rw [processItems_cons]
      refine ⟨by rw [hst2, hst1], ?_, ?_, ?_⟩
      · intro q j hmem
        rcases List.mem_append.mp hmem with hmem | hmem
        · exact hA1 q j hmem
        · exact hA2 q j hmem
      · intro q j hmem
        rcases List.mem_append.mp hmem with hmem | hmem
        · exact hC1 q j hmem
        · exact hC2 q j hmem
      · intro q j sch hmem
        rcases List.mem_append.mp hmem with hmem | hmem
        · exact hF1 q j sch hmem
        · exact (hF2 q j sch hmem).trans (congrArg usedSchema hst1)

lemma runPages_analyzed (full : Bool) (company : Option String) :
    ∀ (pages : List PageSpec) (pIdx : ℕ) (b : Browser) (st : SessionSt),
      st.analyzed = true →
      (runPages full company pages pIdx b st).1 = st
      ∧ (∀ q j, SEvent.discoveryAttempted q j ∉
          (runPages full company pages pIdx b st).2.2)
      ∧ (∀ q j, SEvent.discoveryCalled q j ∉
          (runPages full company pages pIdx b st).2.2)
      ∧ (∀ q j sch, SEvent.detailFetch q j sch ∈
            (runPages full company pages pIdx b st).2.2 →
          sch = usedSchema st) := by
  intro pages
  induction pages with
  | nil => intro pIdx b st _; simp [runPages]
  | cons p rest ih =>
      intro pIdx b st han
      rw [runPages]
      by_cases hempty : p.items.isEmpty = true
      · rw [if_pos hempty]
        simp
      · rw [if_neg hempty]
        obtain ⟨hst1, hA1, hC1, hF1⟩ :=
          processItems_analyzed full company pIdx p.items 0 b st han
        rcases rest with _ | ⟨q0, rest2⟩
        · refine ⟨hst1, ?_, ?_, ?_⟩
          · intro q j hmem
            rcases List.mem_append.mp hmem with hmem | hmem
            · exact hA1 q j hmem
            · simp at hmem
          · intro q j hmem
            rcases List.mem_append.mp hmem with hmem | hmem
            · exact hC1 q j hmem
            · simp at hmem
          · intro q j sch hmem
            rcases List.mem_append.mp hmem with hmem | hmem
            · exact hF1 q j sch hmem
            · simp at hmem
        · cases hnx : p.nextEnabled
          · simp only [hnx]
            refine ⟨hst1, ?_, ?_, ?_⟩
            · intro q j hmem
              rcases List.mem_append.mp hmem with hmem | hmem
              · exact hA1 q j hmem
              · simp at hmem
            · intro q j hmem
              rcases List.mem_append.mp hmem with hmem | hmem
              · exact hC1 q j hmem
              · simp at hmem
            · intro q j sch hmem
              rcases List.mem_append.mp hmem with hmem | hmem
              · exact hF1 q j sch hmem
              · simp at hmem
          · simp only [hnx]
            obtain ⟨hst2, hA2, hC2, hF2⟩ := ih (pIdx + 1) ⟨q0.listUrl⟩
              (processItems full company pIdx p.items 0 b st).2.1
              (by rw [hst1]; exact han)
            refine ⟨by rw [hst2, hst1], ?_, ?_, ?_⟩
            · intro q j hmem
              rcases List.mem_append.mp hmem with hmem | hmem
              · rcases List.mem_append.mp hmem with hmem | hmem
                · exact hA1 q j hmem
                · simp at hmem
              · exact hA2 q j hmem
            · intro q j hmem
              rcases List.mem_append.mp hmem with hmem | hmem
              · rcases List.mem_append.mp hmem with hmem | hmem
                · exact hC1 q j hmem
                · simp at hmem
              · exact hC2 q j hmem
            · intro q j sch hmem
              rcases List.mem_append.mp hmem with hmem | hmem
              · rcases List.mem_append.mp hmem with hmem | hmem
                · exact hF1 q j sch hmem
                · simp at hmem
              · exact (hF2 q j sch hmem).trans (congrArg usedSchema hst1)

lemma processItem_attempt_zero (full : Bool) (company : Option String) (p i : ℕ)
    (it : ItemSpec) (b : Browser) (st : SessionSt) :
    ∀ q j, SEvent.discoveryAttempted q j ∈
        (processItem full company p i it b st).2.2.2 →
      q = p ∧ j = 0 := by
  unfold processItem
  cases hbr : it.baseRaises
  case true => simp
  case false =>
    cases hl : resolveLink b.url it.link
    case none => simp
    case some u =>
      by_cases hfu : full = true ∧ ¬ u = ""
      · by_cases han : st.analyzed = true
        · have hcond : ¬ (¬ st.analyzed = true ∧ i = 0) := fun hh => hh.1 han
          simp [hfu, hfu.2, hcond, han, discoveryStep]
        · have han2 : st.analyzed = false := by simpa using han
          by_cases hi : i = 0
          · subst hi
            cases hdisc : it.discovery with
            | navRaises => simp [hfu, hfu.2, han2, hdisc, discoveryStep]
            | geminiReturns r => simp [hfu, hfu.2, han2, hdisc, discoveryStep]
          · simp [hfu, hfu.2, han2, hi, discoveryStep]
      · simp [hfu]

lemma processItems_attempt_zero (full : Bool) (company : Option String) (p : ℕ) :
    ∀ (items : List ItemSpec) (i : ℕ) (b : Browser) (st : SessionSt) (q j : ℕ),
      SEvent.discoveryAttempted q j ∈
        (processItems full company p items i b st).2.2.2 →
      q = p ∧ j = 0 := by
  intro items
  induction items with
  | nil => intro i b st q j hmem; simp [processItems] at hmem
  | cons it rest ih =>
      intro i b st q j hmem
      rw [processItems_cons] at hmem
      rcases List.mem_append.mp hmem with hmem | hmem
      · exact processItem_attempt_zero full company p i it b st q j hmem
      · exact ih (i + 1) _ _ q j hmem

lemma runPages_attempt_zero (full : Bool) (company : Option String) :
    ∀ (pages : List PageSpec) (pIdx : ℕ) (b : Browser) (st : SessionSt) (q j : ℕ),
      SEvent.discoveryAttempted q j ∈ (runPages full company pages pIdx b st).2.2 →
      j = 0 := by
  intro pages
  induction pages with
  | nil => intro pIdx b st q j hmem; simp [runPages] at hmem
  | cons p rest ih =>
      intro pIdx b st q j hmem
      rw [runPages] at hmem
      by_cases hempty : p.items.isEmpty = true
      · rw [if_pos hempty] at hmem
        simp at hmem
      · rw [if_neg hempty] at hmem
        rcases rest with _ | ⟨q0, rest2⟩
        · rcases List.mem_append.mp hmem with hmem | hmem
          · exact (processItems_attempt_zero full company pIdx p.items 0 b st q j hmem).2
          · simp at hmem
        · cases hnx : p.nextEnabled
          · rw [hnx] at hmem
            rcases List.mem_append.mp hmem with hmem | hmem
            · exact (processItems_attempt_zero full company pIdx p.items 0 b st q j hmem).2
            · simp at hmem
          · rw [hnx] at hmem
            rcases List.mem_append.mp hmem with hmem | hmem
            · rcases List.mem_append.mp hmem with hmem | hmem
              · exact (processItems_attempt_zero full company pIdx p.items 0 b st q j hmem).2
              · simp at hmem
            · exact ih (pIdx + 1) _ _ q j hmem

lemma processItems_triggers_discovery (company : Option String) (p : ℕ)
    (it : ItemSpec) (rest : List ItemSpec) (b : Browser) (st : SessionSt)
    (han : st.analyzed = false) (hbr : it.baseRaises = false)
    (u : String) (hl : resolveLink b.url it.link = some u) (hu : u ≠ "") :
    SEvent.discoveryAttempted p 0 ∈
      (processItems true company p (it :: rest) 0 b st).2.2.2 := by
  rw [processItems_cons]
  apply List.mem_append.mpr
  left
  unfold processItem
  cases hdisc : it.discovery with
  | navRaises => simp [hbr, hl, hu, han, hdisc, discoveryStep]
  | geminiReturns r => simp [hbr, hl, hu, han, hdisc, discoveryStep]

lemma detailJob_nil (base : JobData) : detailJob base [] = base := by
  simp [detailJob]

lemma mkBaseJob_facts (company : Option String) (it : ItemSpec)
    (lnk : Option String) :
    (mkBaseJob company it lnk).map Prod.fst = BASE_RECORD_KEYS
    ∧ dictGet (mkBaseJob company it lnk) "title" = some it.title
    ∧ dictGet (mkBaseJob company it lnk) "location" = some it.location
    ∧ dictGet (mkBaseJob company it lnk) "company" = some company :=
  ⟨rfl, rfl, rfl, rfl⟩

lemma extractJobDetailsM_navRaises (u : String)
    (sch : List (String × Option String)) (it : ItemSpec)
    (h : it.detailNavRaises = true) : (extractJobDetailsM u sch it).2 = [] := by
  simp [extractJobDetailsM, h]

lemma resolveLink_eq_none (pageUrl : String) (l : Option String) :
    resolveLink pageUrl l = none ↔ l = none := by
  cases l with
  | none => simp [resolveLink]
  | some h =>
      simp only [resolveLink]
      split <;> simp

lemma processItem_job (full : Bool) (company : Option String) (p i : ℕ)
    (it : ItemSpec) (b : Browser) (st : SessionSt) :
    (it.baseRaises = true → (processItem full company p i it b st).2.2.1 = none)
    ∧ (it.baseRaises = false →
        ∃ j, (processItem full company p i it b st).2.2.1 = some j
          ∧ ((it.detailNavRaises = true ∨ it.link = none) →
              j.map Prod.fst = BASE_RECORD_KEYS
              ∧ dictGet j "title" = some it.title
              ∧ dictGet j "location" = some it.location
              ∧ dictGet j "company" = some company)) := by
  constructor
  · intro hbr
    simp [processItem, hbr]
  · intro hbr
    cases hl : resolveLink b.url it.link with
    | none =>
        exact ⟨mkBaseJob company it none,
          by simp [processItem, hbr, hl],
          fun _ => mkBaseJob_facts company it none⟩
    | some u =>
        have hne : ¬ it.link = none := by
          intro he
          rw [he] at hl
          simp [resolveLink] at hl
        by_cases hfu : full = true ∧ ¬ u = ""
        · refine ⟨detailJob (mkBaseJob company it (some u))
              (extractJobDetailsM u (usedSchema (discoveryStep p i it st).1) it).2,
            ?_, ?_⟩
          · simp [processItem, hbr, hl, hfu, hfu.2]
          · rintro (hdn | hlink)
            · have hdet := extractJobDetailsM_navRaises u
                (usedSchema (discoveryStep p i it st).1) it hdn
              rw [hdet, detailJob_nil]
              exact mkBaseJob_facts company it (some u)
            · exact absurd hlink hne
        · exact ⟨mkBaseJob company it (some u),
            by simp [processItem, hbr, hl, hfu],
            fun _ => mkBaseJob_facts company it (some u)⟩

lemma processItems_forall2 (full : Bool) (company : Option String) (p : ℕ) :
    ∀ (items : List ItemSpec) (i : ℕ) (b : Browser) (st : SessionSt),
      List.Forall₂
        (fun (j : JobData) (it : ItemSpec) =>
          (it.detailNavRaises = true ∨ it.link = none) →
            j.map Prod.fst = BASE_RECORD_KEYS
            ∧ dictGet j "title" = some it.title
            ∧ dictGet j "location" = some it.location
            ∧ dictGet j "company" = some company)
        (processItems full company p items i b st).2.2.1
        (items.filter fun it => !it.baseRaises) := by
  intro items
  induction items with
  | nil => intro i b st; simp [processItems]
  | cons it rest ih =>
      intro i b st
      rw [processItems_cons]
      obtain ⟨hnone, hsome⟩ := processItem_job full company p i it b st
      cases hbr : it.baseRaises
      case true =>
        rw [hnone hbr]
        simp only [Option.toList_none, List.nil_append, List.filter_cons, hbr]
        simpa using ih (i + 1) _ _
      case false =>
        obtain ⟨j, hj, hP⟩ := hsome hbr
        rw [hj]
        simp only [Option.toList_some, List.filter_cons, hbr,
          Bool.not_false, if_pos, List.singleton_append]
        exact List.Forall₂.cons hP (ih (i + 1) _ _)

/-- A list-page item with no detail link (oracle for the C2 counterexample). -/
def c2NoLinkItem : ItemSpec :=
  { title := some "Engineer", location := some "Remote", jobIdVal := none,
    previewDescription := none, baseRaises := false, link := none,
    discovery := .geminiReturns none, detailNavRaises := false,
    aiFields := fun _ => none, fbFields := [], metaFields := [] }

/-- The same item but carrying a detail link. -/
def c2LinkItem : ItemSpec :=
  { c2NoLinkItem with link := some "https://ex.com/jobs/1" }

/-- A one-page session whose first link-bearing item sits at index 1. -/
def c2Pages : List PageSpec :=
  [⟨"https://ex.com/list", [c2NoLinkItem, c2LinkItem], false⟩]

/-- C2 as stated is false on the code: discovery requires `i == 0`, not
"the first item that has a resolvable detail link".  In a session whose
first item has no link and whose second item has one, no discovery call is
ever made, and the link-bearing item's detail fetch runs with the empty
schema (heuristic fallback only). -/
theorem claim_C2_counterexample :
    countDiscoveryCalls
        (runScrape true (some "acme") "https://ex.com/list" c2Pages).2.2 = 0
    ∧ SEvent.detailFetch 1 1 [] ∈
        (runScrape true (some "acme") "https://ex.com/list" c2Pages).2.2 := by
  exact ⟨by decide, by decide⟩

/-- C2 amended: the detail-schema discovery Gemini call fires at most once
per session; once the analyzed flag is set with an empty-or-absent schema
(as after a failed discovery call), every later detail fetch of the session
uses the empty schema and no further discovery call occurs; discovery is
only ever attempted at item index 0 of a page; and it is attempted whenever
a page's first item has a resolvable nonempty detail link while the session
is still unanalyzed (full-detail mode). -/
theorem claim_C2_discovery_at_most_once :
    (∀ (full : Bool) (company : Option String) (startUrl : String)
        (pages : List PageSpec),
        countDiscoveryCalls (runScrape full company startUrl pages).2.2 ≤ 1)
    ∧ (∀ (full : Bool) (company : Option String) (pages : List PageSpec)
        (pIdx : ℕ) (b : Browser) (st : SessionSt),
        st.analyzed = true → usedSchema st = [] →
        (∀ q j sch, SEvent.detailFetch q j sch ∈
            (runPages full company pages pIdx b st).2.2 → sch = [])
        ∧ (∀ q j, SEvent.discoveryCalled q j ∉
            (runPages full company pages pIdx b st).2.2))
    ∧ (∀ (full : Bool) (company : Option String) (startUrl : String)
        (pages : List PageSpec) (q j : ℕ),
        SEvent.discoveryAttempted q j ∈
          (runScrape full company startUrl pages).2.2 → j = 0)
    ∧ (∀ (company : Option String) (p : ℕ) (it : ItemSpec)
        (rest : List ItemSpec) (b : Browser) (st : SessionSt) (u : String),
        st.analyzed = false → it.baseRaises = false →
        resolveLink b.url it.link = some u → u ≠ "" →
        SEvent.discoveryAttempted p 0 ∈
          (processItems true company p (it :: rest) 0 b st).2.2.2) := by
  refine ⟨?_, ?_, ?_, ?_⟩
  · intro full company startUrl pages
    have h := runPages_budget full company pages 1 ⟨startUrl⟩ ⟨false, none⟩
    have hb : callBudget ⟨false, none⟩ = 1 := rfl
    rw [hb] at h
    show countDiscoveryCalls
      (runPages full company pages 1 ⟨startUrl⟩ ⟨false, none⟩).2.2 ≤ 1
    omega
  · intro full company pages pIdx b st han hschema
    obtain ⟨-, -, hC, hF⟩ := runPages_analyzed full company pages pIdx b st han
    exact ⟨fun q j sch hmem => (hF q j sch hmem).trans hschema, hC⟩
  · intro full company startUrl pages q j hmem
    exact runPages_attempt_zero full company pages 1 ⟨startUrl⟩ ⟨false, none⟩
      q j hmem
  · intro company p it rest b st u han hbr hl hu
    exact processItems_triggers_discovery company p it rest b st han hbr u hl hu

/-- Witness for C2 amended: the counterexample session makes at most one
(indeed zero) discovery calls, and a page whose first item does carry a
link attempts discovery at index 0. -/
theorem claim_C2_discovery_at_most_once_witness :
    countDiscoveryCalls
        (runScrape true (some "acme") "https://ex.com/list" c2Pages).2.2 ≤ 1
    ∧ SEvent.discoveryAttempted 1 0 ∈
        (processItems true (some "acme") 1 [c2LinkItem] 0
          ⟨"https://ex.com/list"⟩ ⟨false, none⟩).2.2.2 := by
  constructor
  · exact claim_C2_discovery_at_most_once.1 true (some "acme")
      "https://ex.com/list" c2Pages
  · exact claim_C2_discovery_at_most_once.2.2.2 (some "acme") 1 c2LinkItem []
      ⟨"https://ex.com/list"⟩ ⟨false, none⟩ "https://ex.com/jobs/1"
      rfl rfl (by decide) (by decide)

/-- First item of the C3 session: detail link to `https://ex.com/a`. -/
def c3ItemA : ItemSpec :=
  { title := some "A", location := none, jobIdVal := none,
    previewDescription := none, baseRaises := false,
    link := some "https://ex.com/a", discovery := .geminiReturns none,
    detailNavRaises := false, aiFields := fun _ => none,
    fbFields := [], metaFields := [] }

/-- Second item of the C3 session: detail link to `https://ex.com/b`. -/
def c3ItemB : ItemSpec :=
  { c3ItemA with link := some "https://ex.com/b" }

/-- A one-page session with two link-bearing items. -/
def c3Pages : List PageSpec :=
  [⟨"https://ex.com/list", [c3ItemA, c3ItemB], false⟩]

/-- C3: the code never navigates back to the list page.  `extract_job_details`
drives the shared page object to the detail URL and no `go_back`/`goto(list)`
follows, so in a two-item session the second item is processed while the
browser still sits on the first item's detail URL, and the pagination check
runs against the second item's detail URL — not the list page.  The full
trace of the embedded run exhibits this. -/
theorem claim_C3_no_return_to_list :
    (runScrape true (some "acme") "https://ex.com/list" c3Pages).2.2 =
      [SEvent.itemAt 1 0 "https://ex.com/list",
       SEvent.discoveryAttempted 1 0,
       SEvent.discoveryCalled 1 0,
       SEvent.detailFetch 1 0 [],
       SEvent.itemAt 1 1 "https://ex.com/a",
       SEvent.detailFetch 1 1 [],
       SEvent.paginationCheck 1 "https://ex.com/b"]
    ∧ SEvent.itemAt 1 1 "https://ex.com/a" ∈
        (runScrape true (some "acme") "https://ex.com/list" c3Pages).2.2
    ∧ ("https://ex.com/a" : String) ≠ "https://ex.com/list"
    ∧ SEvent.paginationCheck 1 "https://ex.com/b" ∈
        (runScrape true (some "acme") "https://ex.com/list" c3Pages).2.2 := by
  refine ⟨by decide, by decide, by decide, by decide⟩

/-- C9: per-item failures are isolated.  For every page item list, the
records produced are exactly one per item whose base extraction does not
raise, in order (a raising item is skipped without affecting the others);
and an item whose detail navigation raises — like one with no detail link —
still yields exactly its base record dict, with no detail augmentation: its
key set is the base-record key set and its base fields hold the list-page
values.  (Records are one flat Python dict, so for an item whose detail
fetch does contribute fields, a detail key that collides with a base key
overwrites it — the base-field guarantee is claimed only where no
augmentation happens.) -/
theorem claim_C9_item_isolation :
    ∀ (full : Bool) (company : Option String) (p : ℕ) (items : List ItemSpec)
      (i : ℕ) (b : Browser) (st : SessionSt),
      List.Forall₂
        (fun (j : JobData) (it : ItemSpec) =>
          (it.detailNavRaises = true ∨ it.link = none) →
            j.map Prod.fst = BASE_RECORD_KEYS
            ∧ dictGet j "title" = some it.title
            ∧ dictGet j "location" = some it.location
            ∧ dictGet j "company" = some company)
        (processItems full company p items i b st).2.2.1
        (items.filter fun it => !it.baseRaises)
      ∧ (processItems full company p items i b st).2.2.1.length
          = (items.filter fun it => !it.baseRaises).length := by
  intro full company p items i b st
  have h := processItems_forall2 full company p items i b st
  exact ⟨h, h.length_eq⟩

/-- An ordinary item (oracle for the C9 witness). -/
def c9Ok : ItemSpec :=
  { title := some "T1", location := some "L1", jobIdVal := none,
    previewDescription := none, baseRaises := false, link := none,
    discovery := .geminiReturns none, detailNavRaises := false,
    aiFields := fun _ => none, fbFields := [], metaFields := [] }

/-- An item whose base extraction raises. -/
def c9Raises : ItemSpec := { c9Ok with baseRaises := true }

/-- An item whose detail navigation raises. -/
def c9NavRaises : ItemSpec :=
  { c9Ok with link := some "https://ex.com/a", detailNavRaises := true }

/-- Witness for C9: of three items where the middle one raises, exactly the
other two records are returned. -/
theorem claim_C9_item_isolation_witness :
    (processItems true (some "acme") 1 [c9Ok, c9Raises, c9NavRaises] 0
        ⟨"https://ex.com/l"⟩ ⟨false, none⟩).2.2.1.length = 2 := by
  have h := (claim_C9_item_isolation true (some "acme") 1
    [c9Ok, c9Raises, c9NavRaises] 0 ⟨"https://ex.com/l"⟩ ⟨false, none⟩).2
  rw [h]
  decide

end Scrapper
